import Mathlib

/-!
# Bridge analyzer (`backend/bridge/main.go`): a shallow embedding

Go strings are modelled as lists of characters (`Str`); the requests reach the
analyzer through the JSON decoder, so they are valid UTF-8 and a list of code
points loses nothing.  Go maps are modelled as association lists with pairwise
distinct keys, the list order standing for the order in which the runtime
iterates the map.  The Go `int` fields hold small non-negative counts and are
modelled as `Nat`.
-/

/-- A Go string, as its list of code points. -/
abbrev Str := List Char

/-! ## The `strings` package functions used by the analyzer -/

namespace strings

/-- The function `strings.HasPrefix`. -/
def HasPrefix (s pre : Str) : Bool := pre.isPrefixOf s

/-- The function `strings.HasSuffix`. -/
def HasSuffix (s suf : Str) : Bool := suf.isSuffixOf s

/-- The function `strings.Contains`. -/
def Contains : Str → Str → Bool
  | [], sub => sub.isEmpty
  | x :: t, sub => HasPrefix (x :: t) sub || Contains t sub

/-- The function `strings.TrimPrefix`. -/
def TrimPrefix (s pre : Str) : Str :=
  if HasPrefix s pre then s.drop pre.length else s

/-- The function `strings.LastIndex` for a one-character separator; `none` stands for `-1`. -/
def LastIndex : Str → Char → Option Nat
  | [], _ => none
  | x :: t, c =>
    match LastIndex t c with
    | some i => some (i + 1)
    | none => if x = c then some 0 else none

/-- The function `strings.Split` for a one-character separator (the only use in the source). -/
def Split : Str → Char → List Str
  | [], _ => [[]]
  | x :: t, c =>
    if x = c then [] :: Split t c
    else
      match Split t c with
      | [] => [[x]]
      | h :: r => (x :: h) :: r

/-- The function `strings.Join`. -/
def Join (parts : List Str) (sep : Str) : Str := sep.intercalate parts

/-- Left-to-right, non-overlapping replacement: `skip` characters of an occurrence that
has just been replaced are still to be passed over. -/
def replaceAllAux (old new : Str) : Nat → Str → Str
  | _, [] => []
  | k + 1, _ :: t => replaceAllAux old new k t
  | 0, x :: t =>
    if HasPrefix (x :: t) old then new ++ replaceAllAux old new (old.length - 1) t
    else x :: replaceAllAux old new 0 t

/-- The function `strings.ReplaceAll` for a non-empty `old`. -/
def ReplaceAll (s old new : Str) : Str := replaceAllAux old new 0 s

/-- The predicate `unicode.IsSpace`. -/
def isSpace (c : Char) : Bool :=
  let n := c.toNat
  (9 ≤ n && n ≤ 13) || n = 32 || n = 0x85 || n = 0xA0 || n = 0x1680 ||
  (0x2000 ≤ n && n ≤ 0x200A) || n = 0x2028 || n = 0x2029 || n = 0x202F ||
  n = 0x205F || n = 0x3000

/-- The function `strings.TrimSpace`. -/
def TrimSpace (s : Str) : Str :=
  ((s.dropWhile isSpace).reverse.dropWhile isSpace).reverse

/-- The function `strings.Trim`. -/
def Trim (s cutset : Str) : Str :=
  ((s.dropWhile (fun c => cutset.contains c)).reverse.dropWhile
    (fun c => cutset.contains c)).reverse

/-- The function `strings.ToLower`, on the ASCII letters.  No letter outside ASCII
lowercases to a letter that occurs in the suffixes the analyzer tests. -/
def ToLower (s : Str) : Str :=
  s.map (fun c => if 65 ≤ c.toNat ∧ c.toNat ≤ 90 then Char.ofNat (c.toNat + 32) else c)

end strings

/-! ## The fragment of `regexp` syntax used by the pattern catalog -/

/-- One item of a bracket expression. -/
inductive ClassItem where
  | ch (c : Char)
  | range (lo hi : Char)
  | space
  | word
  deriving DecidableEq, Repr

/-- Does the item accept the character?  `\s` is `[\t\n\f\r ]` and `\w` is
`[0-9A-Za-z_]`, as in RE2. -/
def ClassItem.test : ClassItem → Char → Bool
  | .ch c, x => x = c
  | .range lo hi, x => lo.toNat ≤ x.toNat && x.toNat ≤ hi.toNat
  | .space, x => x.toNat = 9 || x.toNat = 10 || x.toNat = 12 || x.toNat = 13 || x.toNat = 32
  | .word, x =>
    (48 ≤ x.toNat && x.toNat ≤ 57) || (65 ≤ x.toNat && x.toNat ≤ 90) ||
    (97 ≤ x.toNat && x.toNat ≤ 122) || x.toNat = 95

/-- A one-character matcher: a bracket expression `[...]` or `[^...]`, or `.`. -/
inductive CharSet where
  | cls (neg : Bool) (items : List ClassItem)
  | dot
  deriving DecidableEq, Repr

/-- Does the one-character matcher accept the character?  `.` excludes the newline. -/
def CharSet.test : CharSet → Char → Bool
  | .cls neg items, x => (items.any (fun i => i.test x)) != neg
  | .dot, x => x.toNat != 10

/-- The regular expressions of the catalog: every repetition in it is over a
one-character matcher. -/
inductive Regex where
  | eps
  | one (cs : CharSet)
  | bol
  | seq (a b : Regex)
  | alt (a b : Regex)
  | opt (a : Regex)
  | star (cs : CharSet)
  | plus (cs : CharSet)
  | group (i : Nat) (a : Regex)
  deriving DecidableEq, Repr

/-- The capture groups set so far, the latest first. -/
abbrev Caps := List (Nat × Str)

/-- Greedy repetition of a one-character matcher, giving back characters one at a time
when the continuation fails. -/
def starRun {R : Type} (cs : CharSet) (k : Bool → Str → Caps → Option R) :
    Bool → Str → Caps → Option R
  | b, [], c => k b [] c
  | b, x :: t, c =>
    if cs.test x then
      match starRun cs k (x.toNat = 10) t c with
      | some r => some r
      | none => k b (x :: t) c
    else k b (x :: t) c

/-- Backtracking matcher in continuation-passing style; the Boolean tells whether the
position is at the beginning of a line (`(?m)^`).  The first success in preference
order is the leftmost-first match of Go's `regexp`. -/
def Regex.run {R : Type} : Regex → (Bool → Str → Caps → Option R) →
    Bool → Str → Caps → Option R
  | .eps, k, b, s, c => k b s c
  | .one cs, k, _, s, c =>
    match s with
    | [] => none
    | x :: t => if cs.test x then k (x.toNat = 10) t c else none
  | .bol, k, b, s, c => if b then k b s c else none
  | .seq r1 r2, k, b, s, c => r1.run (r2.run k) b s c
  | .alt r1 r2, k, b, s, c =>
    match r1.run k b s c with
    | some r => some r
    | none => r2.run k b s c
  | .opt r, k, b, s, c =>
    match r.run k b s c with
    | some x => some x
    | none => k b s c
  | .star cs, k, b, s, c => starRun cs k b s c
  | .plus cs, k, _, s, c =>
    match s with
    | [] => none
    | x :: t => if cs.test x then starRun cs k (x.toNat = 10) t c else none
  | .group i r, k, b, s, c =>
    r.run (fun b1 s1 c1 => k b1 s1 ((i, s.take (s.length - s1.length)) :: c1)) b s c

/-- Number of capture groups of the expression. -/
def Regex.numGroups : Regex → Nat
  | .seq a b => a.numGroups + b.numGroups
  | .alt a b => a.numGroups + b.numGroups
  | .opt a => a.numGroups
  | .group _ a => a.numGroups + 1
  | _ => 0

/-- The match that starts at the current position, if any: the rest of the input and
the captures. -/
def Regex.matchAt (re : Regex) (atBol : Bool) (s : Str) : Option (Str × Caps) :=
  re.run (fun _ rest c => some (rest, c)) atBol s []

/-- The slice of one match: the whole match, then each group (empty when the group did
not take part). -/
def Regex.submatch (re : Regex) (s rest : Str) (c : Caps) : List Str :=
  s.take (s.length - rest.length) ::
    (List.range re.numGroups).map (fun i => (c.lookup (i + 1)).getD [])

/-- The successive matches from a position: `skip` characters of the last match are
still to be passed over, `am` tells that the last match ended exactly here (an empty
match is then not accepted), `b` that the position begins a line. -/
def Regex.findAllFrom (re : Regex) : Nat → Bool → Bool → Str → List (List Str)
  | k + 1, _, _, x :: t => re.findAllFrom k true (x.toNat = 10) t
  | _ + 1, _, _, [] => []
  | 0, am, b, [] =>
    match re.matchAt b [] with
    | none => []
    | some (rest, c) => if am then [] else [re.submatch [] rest c]
  | 0, am, b, x :: t =>
    match re.matchAt b (x :: t) with
    | none => re.findAllFrom 0 false (x.toNat = 10) t
    | some (rest, c) =>
      if (x :: t).length - rest.length = 0 then
        (if am then [] else [re.submatch (x :: t) rest c]) ++
          re.findAllFrom 0 false (x.toNat = 10) t
      else
        re.submatch (x :: t) rest c ::
          re.findAllFrom ((x :: t).length - rest.length - 1) true (x.toNat = 10) t

/-- The method `(*Regexp).FindAllStringSubmatch(s, -1)`. -/
def Regex.FindAllStringSubmatch (re : Regex) (s : Str) : List (List Str) :=
  re.findAllFrom 0 false true s

/-! ## The pattern catalog (`languagePatterns`) -/

namespace Regex

/-- Concatenation of a list of expressions. -/
def seqs : List Regex → Regex
  | [] => eps
  | [r] => r
  | r :: rs => seq r (seqs rs)

/-- Alternation of a list of expressions, in preference order. -/
def alts : List Regex → Regex
  | [] => eps
  | [r] => r
  | r :: rs => alt r (alts rs)

/-- A literal character. -/
def lit (c : Char) : Regex := one (.cls false [.ch c])

/-- A literal word. -/
def lits (w : String) : Regex := seqs (w.toList.map lit)

end Regex

/-- The single quote. -/
def squote : Char := Char.ofNat 39

/-- The double quote. -/
def dquote : Char := Char.ofNat 34

/-- The class `\s`. -/
def csSpace : CharSet := .cls false [.space]

/-- The class `\w`. -/
def csWord : CharSet := .cls false [.word]

/-- The class `['"]`. -/
def csQuote : CharSet := .cls false [.ch squote, .ch dquote]

/-- The class `[^'"]`. -/
def csNotQuote : CharSet := .cls true [.ch squote, .ch dquote]

/-- The tail `\s*from\s*['"]([^'"]+)['"]` with the path in group `i`. -/
def reFromPath (i : Nat) : Regex :=
  .seqs [.star csSpace, .lits "from", .star csSpace, .one csQuote,
    .group i (.plus csNotQuote), .one csQuote]

/-- The expression `(?:(\w+)(?:\s*,\s*)?)?(?:\{([^}]+)\})?`. -/
def reBindings : Regex :=
  .seqs [
    .opt (.seqs [.group 1 (.plus csWord),
      .opt (.seqs [.star csSpace, .lit ',', .star csSpace])]),
    .opt (.seqs [.lit (Char.ofNat 123),
      .group 2 (.plus (.cls true [.ch (Char.ofNat 125)])), .lit (Char.ofNat 125)])]

/-- TypeScript:
`(?m)^import\s+(?:type\s+)?(?:(\w+)(?:\s*,\s*)?)?(?:\{([^}]+)\})?\s*from\s*['"]([^'"]+)['"]`. -/
def reTsImport : Regex :=
  .seqs [.bol, .lits "import", .plus csSpace, .opt (.seqs [.lits "type", .plus csSpace]),
    reBindings, reFromPath 3]

/-- JavaScript:
`(?m)^import\s+(?:(\w+)(?:\s*,\s*)?)?(?:\{([^}]+)\})?\s*from\s*['"]([^'"]+)['"]`. -/
def reJsImport : Regex :=
  .seqs [.bol, .lits "import", .plus csSpace, reBindings, reFromPath 3]

/-- The expression `(?m)^import\s+\*\s+as\s+(\w+)\s+from\s*['"]([^'"]+)['"]`. -/
def reNamespaceImport : Regex :=
  .seqs [.bol, .lits "import", .plus csSpace, .lit '*', .plus csSpace, .lits "as",
    .plus csSpace, .group 1 (.plus csWord), .plus csSpace, .lits "from", .star csSpace,
    .one csQuote, .group 2 (.plus csNotQuote), .one csQuote]

/-- The expression `(?m)^import\s+['"]([^'"]+)['"]`. -/
def reSideEffectImport : Regex :=
  .seqs [.bol, .lits "import", .plus csSpace, .one csQuote, .group 1 (.plus csNotQuote),
    .one csQuote]

/-- The expressions `import\(['"]([^'"]+)['"]\)` and `require\(['"]([^'"]+)['"]\)`. -/
def reCallImport (fn : String) : Regex :=
  .seqs [.lits fn, .lit '(', .one csQuote, .group 1 (.plus csNotQuote), .one csQuote,
    .lit ')']

/-- The expression
`(?m)^export\s+(?:default\s+)?(?:async\s+)?(?:kw1|kw2|...)\s+(\w+)`. -/
def reExportDecl (kws : List String) : Regex :=
  .seqs [.bol, .lits "export", .plus csSpace, .opt (.seqs [.lits "default", .plus csSpace]),
    .opt (.seqs [.lits "async", .plus csSpace]), .alts (kws.map Regex.lits), .plus csSpace,
    .group 1 (.plus csWord)]

/-- The expression `(?m)^export\s+\{([^}]+)\}`. -/
def reExportList : Regex :=
  .seqs [.bol, .lits "export", .plus csSpace, .lit (Char.ofNat 123),
    .group 1 (.plus (.cls true [.ch (Char.ofNat 125)])), .lit (Char.ofNat 125)]

/-- The expression `(?m)^export\s+default`. -/
def reExportDefault : Regex :=
  .seqs [.bol, .lits "export", .plus csSpace, .lits "default"]

/-- The expression `module\.exports\s*=`. -/
def reModuleExports : Regex :=
  .seqs [.lits "module", .lit '.', .lits "exports", .star csSpace, .lit '=']

/-- The expressions `(?m)^kw\s+(\w+)` followed by `tail`. -/
def reKeywordName (kw : List String) (tail : Regex) : Regex :=
  .seqs ([Regex.bol] ++ (kw.map (fun w => Regex.seqs [.lits w, .plus csSpace])) ++
    [.group 1 (.plus csWord), tail])

/-- The expressions `(?m)^kw\s+([A-Z]\w*)` of the Go export list. -/
def reGoExported (kw : String) : Regex :=
  .seqs [.bol, .lits kw, .plus csSpace,
    .group 1 (.seq (.one (.cls false [.range 'A' 'Z'])) (.star csWord))]

/-- LanguagePatterns holds the patterns of one language. -/
structure LanguagePatterns where
  Imports : List Regex
  Exports : List Regex

/-- The catalog `languagePatterns`; `none` when the language has no entry. -/
def languagePatterns (language : Str) : Option LanguagePatterns :=
  if language = "typescript".toList then
    some {
      Imports := [reTsImport, reNamespaceImport, reSideEffectImport,
        reCallImport "import", reCallImport "require"]
      Exports := [
        reExportDecl ["function", "class", "const", "let", "var", "interface", "type", "enum"],
        reExportList, reExportDefault] }
  else if language = "javascript".toList then
    some {
      Imports := [reJsImport, reNamespaceImport, reSideEffectImport,
        reCallImport "import", reCallImport "require"]
      Exports := [
        reExportDecl ["function", "class", "const", "let", "var"],
        reExportList, reExportDefault, reModuleExports] }
  else if language = "python".toList then
    some {
      -- `(?m)^from\s+([.\w]+)\s+import\s+(.+)`, `(?m)^import\s+([.\w]+)(?:\s+as\s+\w+)?`
      Imports := [
        .seqs [.bol, .lits "from", .plus csSpace,
          .group 1 (.plus (.cls false [.ch '.', .word])), .plus csSpace, .lits "import",
          .plus csSpace, .group 2 (.plus .dot)],
        .seqs [.bol, .lits "import", .plus csSpace,
          .group 1 (.plus (.cls false [.ch '.', .word])),
          .opt (.seqs [.plus csSpace, .lits "as", .plus csSpace, .plus csWord])]]
      -- `(?m)^def\s+(\w+)\s*\(`, `(?m)^class\s+(\w+)`, `(?m)^(\w+)\s*=`
      Exports := [
        reKeywordName ["def"] (.seqs [.star csSpace, .lit '(']),
        reKeywordName ["class"] .eps,
        reKeywordName [] (.seqs [.star csSpace, .lit '='])] }
  else if language = "go".toList then
    some {
      -- `(?m)import\s+\(\s*([^)]+)\s*\)`, `(?m)import\s+"([^"]+)"`
      Imports := [
        .seqs [.lits "import", .plus csSpace, .lit '(', .star csSpace,
          .group 1 (.plus (.cls true [.ch ')'])), .star csSpace, .lit ')'],
        .seqs [.lits "import", .plus csSpace, .lit dquote,
          .group 1 (.plus (.cls true [.ch dquote])), .lit dquote]]
      Exports := [reGoExported "func", reGoExported "type", reGoExported "var",
        reGoExported "const"] }
  else if language = "rust".toList then
    some {
      -- `(?m)^use\s+([^;]+);`, `(?m)^mod\s+(\w+);`
      Imports := [
        .seqs [.bol, .lits "use", .plus csSpace, .group 1 (.plus (.cls true [.ch ';'])),
          .lit ';'],
        reKeywordName ["mod"] (.lit ';')]
      -- `(?m)^pub\s+fn\s+(\w+)` and the like
      Exports := [reKeywordName ["pub", "fn"] .eps, reKeywordName ["pub", "struct"] .eps,
        reKeywordName ["pub", "enum"] .eps, reKeywordName ["pub", "trait"] .eps] }
  else none

/-! ## Data model -/

/-- DependencyLink represents a connection between files. -/
structure DependencyLink where
  TargetPath : Str := []
  ImportType : Str := []
  ImportNames : List Str := []
  LineNumber : Nat := 0
  IsExternal : Bool := false
  deriving DecidableEq, Repr

/-- DependencyNode represents a file and its dependencies (`Type_` is the field `Type`). -/
structure DependencyNode where
  Path : Str := []
  Name : Str := []
  Type_ : Str := []
  Importance : Nat := 0
  Dependencies : List DependencyLink := []
  Exports : List Str := []
  Language : Str := []
  deriving DecidableEq, Repr

/-- BridgeRequest represents the analysis request; `RepoFiles` maps path to content. -/
structure BridgeRequest where
  FilePath : Str
  FileContent : Str
  RepoFiles : List (Str × Str)
  Owner : Str := []
  Repo : Str := []
  deriving DecidableEq, Repr

/-- BridgeResponse represents the analysis result. -/
structure BridgeResponse where
  SourceFile : DependencyNode
  Dependencies : List DependencyNode
  Dependents : List DependencyNode
  TotalNodes : Nat
  TotalEdges : Nat
  deriving DecidableEq, Repr

/-! ## Extraction -/

/-- The function `isExternalDependency`. -/
def isExternalDependency (path language : Str) : Bool :=
  if language = "typescript".toList ∨ language = "javascript".toList then
    !strings.HasPrefix path ".".toList &&
      !strings.HasPrefix path "@/".toList &&
      !strings.HasPrefix path "~/".toList
  else if language = "python".toList then
    !strings.HasPrefix path ".".toList
  else if language = "go".toList then
    strings.Contains path "/".toList
  else if language = "rust".toList then
    !strings.HasPrefix path "crate::".toList && !strings.HasPrefix path "self::".toList &&
      !strings.HasPrefix path "super::".toList
  else true

/-- The loop `for _, name := range names` that trims each piece and appends the
non-blank ones to the name list. -/
def appendTrimmed (acc : List Str) (names : List Str) : List Str :=
  names.foldl (fun acc name =>
    let name := strings.TrimSpace name
    if name ≠ [] then acc ++ [name] else acc) acc

/-- The function `parseDependencyMatch`; `m` is the match slice (`match` in the source). -/
def parseDependencyMatch (m : List Str) (language : Str) (lineNum : Nat) : DependencyLink :=
  let link : DependencyLink := { LineNumber := lineNum }
  let link :=
    if language = "typescript".toList ∨ language = "javascript".toList then
      if m.length ≥ 4 then
        let link := { link with TargetPath := m.getD 3 [] }
        let link :=
          if m.getD 1 [] ≠ [] then
            { link with
              ImportType := "default".toList
              ImportNames := link.ImportNames ++ [m.getD 1 []] }
          else link
        if m.getD 2 [] ≠ [] then
          { link with
            ImportType := "named".toList
            ImportNames := appendTrimmed link.ImportNames (strings.Split (m.getD 2 []) ',') }
        else link
      else if m.length ≥ 3 then
        { link with
          TargetPath := m.getD 2 []
          ImportType := "namespace".toList
          ImportNames := link.ImportNames ++ [m.getD 1 []] }
      else if m.length ≥ 2 then
        { link with TargetPath := m.getD 1 [], ImportType := "sideEffect".toList }
      else link
    else if language = "python".toList then
      if m.length ≥ 3 then
        { link with
          TargetPath := m.getD 1 []
          ImportType := "named".toList
          ImportNames := appendTrimmed link.ImportNames (strings.Split (m.getD 2 []) ',') }
      else if m.length ≥ 2 then
        { link with TargetPath := m.getD 1 [], ImportType := "default".toList }
      else link
    else if language = "go".toList then
      if m.length ≥ 2 then
        (strings.Split (m.getD 1 []) (Char.ofNat 10)).foldl (fun link imp =>
          let imp := strings.TrimSpace imp
          let imp := strings.Trim imp [dquote]
          if imp ≠ [] ∧ ¬ strings.HasPrefix imp "//".toList then
            { link with TargetPath := imp, ImportType := "default".toList }
          else link) link
      else link
    else if language = "rust".toList then
      if m.length ≥ 2 then
        { link with TargetPath := m.getD 1 [], ImportType := "default".toList }
      else link
    else link
  { link with IsExternal := isExternalDependency link.TargetPath language }

/-- The function `extractImports`. -/
def extractImports (content language : Str) : List DependencyLink :=
  match languagePatterns language with
  | none => []
  | some patterns =>
    (strings.Split content (Char.ofNat 10)).enum.foldl (fun links (lineNum, line) =>
      patterns.Imports.foldl (fun links pattern =>
        (pattern.FindAllStringSubmatch line).foldl (fun links m =>
          let link := parseDependencyMatch m language (lineNum + 1)
          if link.TargetPath ≠ [] then links ++ [link] else links) links) links) []

/-- The function `extractExports`; the state of the loops is the pair of the `exports`
slice and the `seen` set. -/
def extractExports (content language : Str) : List Str :=
  match languagePatterns language with
  | none => []
  | some patterns =>
    (patterns.Exports.foldl (fun st pattern =>
      (pattern.FindAllStringSubmatch content).foldl (fun st m =>
        if m.length ≥ 2 then
          (strings.Split (m.getD 1 []) ',').foldl (fun (st : List Str × List Str) name =>
            let name := strings.TrimSpace name
            if name ≠ [] ∧ ¬ name ∈ st.2 then (st.1 ++ [name], name :: st.2) else st) st
        else st) st) ([], [])).1

/-! ## Path resolution -/

/-- Is the path a key of the snapshot map? -/
def hasKey (repoFiles : List (Str × Str)) (path : Str) : Bool :=
  repoFiles.any (fun e => e.1 = path)

/-- The directory of the source file: `sourcePath[:idx]` for the last `/`, else empty. -/
def sourceDirOf (sourcePath : Str) : Str :=
  match strings.LastIndex sourcePath '/' with
  | some idx => sourcePath.take idx
  | none => []

/-- The loop that counts the leading `..` segments. -/
def upCountOf (importParts : List Str) : Nat :=
  (importParts.takeWhile (fun p => p = "..".toList)).length

/-- The first part of `resolveImportPath`, for an import that is not external: the alias
rewrite and the relative resolution, giving `resolved` before the clean-up. -/
def resolveRelative (sourcePath importPath : Str) : Str :=
  let importPath :=
    if strings.HasPrefix importPath "@/".toList then
      "src/".toList ++ strings.TrimPrefix importPath "@/".toList
    else importPath
  let sourceDir := sourceDirOf sourcePath
  if strings.HasPrefix importPath "./".toList then
    sourceDir ++ "/".toList ++ strings.TrimPrefix importPath "./".toList
  else if strings.HasPrefix importPath "../".toList then
    let parts := strings.Split sourceDir '/'
    let importParts := strings.Split importPath '/'
    let upCount := upCountOf importParts
    if upCount ≤ parts.length then
      let remaining := parts.take (parts.length - upCount)
      strings.Join remaining "/".toList ++ "/".toList ++
        strings.Join (importParts.drop upCount) "/".toList
    else []
  else importPath

/-- The clean-up step of `resolveImportPath`. -/
def cleanPath (resolved : Str) : Str :=
  strings.TrimPrefix (strings.ReplaceAll resolved "//".toList "/".toList) "/".toList

/-- The slice `extensions` of `resolveImportPath`. -/
def extensions : List Str :=
  ["".toList, ".ts".toList, ".tsx".toList, ".js".toList, ".jsx".toList,
    "/index.ts".toList, "/index.tsx".toList, "/index.js".toList, "/index.jsx".toList]

/-- The probing loop of `resolveImportPath`: the first `resolved + ext` that is a key. -/
def probe (resolved : Str) (repoFiles : List (Str × Str)) : List Str → Option Str
  | [] => none
  | ext :: rest =>
    if hasKey repoFiles (resolved ++ ext) then some (resolved ++ ext)
    else probe resolved repoFiles rest

/-- The function `resolveImportPath`. -/
def resolveImportPath (sourcePath importPath : Str) (repoFiles : List (Str × Str)) : Str :=
  if isExternalDependency importPath "typescript".toList then importPath
  else
    let resolved := cleanPath (resolveRelative sourcePath importPath)
    match probe resolved repoFiles extensions with
    | some testPath => testPath
    | none => resolved

/-! ## Classification and importance -/

/-- The function `getLanguage`. -/
def getLanguage (filePath : Str) : Str :=
  let ext := strings.ToLower filePath
  if strings.HasSuffix ext ".ts".toList ∨ strings.HasSuffix ext ".tsx".toList then
    "typescript".toList
  else if strings.HasSuffix ext ".js".toList ∨ strings.HasSuffix ext ".jsx".toList ∨
      strings.HasSuffix ext ".mjs".toList then
    "javascript".toList
  else if strings.HasSuffix ext ".py".toList then "python".toList
  else if strings.HasSuffix ext ".go".toList then "go".toList
  else if strings.HasSuffix ext ".rs".toList then "rust".toList
  else if strings.HasSuffix ext ".css".toList ∨ strings.HasSuffix ext ".scss".toList ∨
      strings.HasSuffix ext ".sass".toList then
    "css".toList
  else if strings.HasSuffix ext ".json".toList then "json".toList
  else "unknown".toList

/-- The function `getFileName`. -/
def getFileName (path : Str) : Str :=
  match strings.LastIndex path '/' with
  | some idx => path.drop (idx + 1)
  | none => path

/-- The function `getFileType`. -/
def getFileType (path : Str) : Str :=
  let name := getFileName path
  if strings.Contains path "/components/".toList then "component".toList
  else if strings.Contains path "/lib/".toList ∨ strings.Contains path "/utils/".toList then
    "utility".toList
  else if strings.Contains path "/types/".toList then "type".toList
  else if strings.Contains path "/api/".toList then "api".toList
  else if strings.Contains path "/app/".toList ∧
      (strings.HasSuffix name "page.tsx".toList ∨ strings.HasSuffix name "page.ts".toList) then
    "page".toList
  else if strings.HasSuffix name ".config.ts".toList ∨
      strings.HasSuffix name ".config.js".toList ∨ strings.HasSuffix name ".json".toList then
    "config".toList
  else if strings.HasSuffix name ".css".toList ∨ strings.HasSuffix name ".scss".toList then
    "style".toList
  else "file".toList

/-- The function `calculateImportance`; `allDeps` maps a path to its dependency paths. -/
def calculateImportance (node : DependencyNode) (allDeps : List (Str × List Str)) : Nat :=
  let importance := 0
  let importance := allDeps.foldl (fun importance e =>
    e.2.foldl (fun importance dep =>
      if dep = node.Path then importance + 10 else importance) importance) importance
  let importance := importance + node.Exports.length * 2
  if strings.Contains node.Path "/lib/".toList ∨ strings.Contains node.Path "/utils/".toList then
    importance + 5
  else if strings.Contains node.Path "/components/".toList then importance + 3
  else if strings.Contains node.Path "/types/".toList then importance + 4
  else importance

/-! ## The analysis (`analyzeBridge`)

`sort.Slice` belongs to the Go library; the analysis takes it as the parameter
`sortSlice`, and the theorems assume of it what its documentation promises
(`SortSliceSpec`).  The three loops over maps run in the list order of `RepoFiles`: the
first two only fill maps, so the order of the third, over `allDeps`, is the one that
shows, and every order of it is the list order of some arrangement of `RepoFiles`. -/

/-- The comparison handed to `sort.Slice`: `x.Importance > y.Importance`. -/
def importanceLess (x y : DependencyNode) : Bool := decide (x.Importance > y.Importance)

/-- The type of `sort.Slice` on a slice of nodes. -/
abbrev SortSlice := (DependencyNode → DependencyNode → Bool) → List DependencyNode →
  List DependencyNode

/-- What the documentation of `sort.Slice` promises: the result is a rearrangement of
the slice, and when `less` is a strict weak ordering no element is followed by one that
is less than it. -/
def SortSliceSpec (sortSlice : SortSlice) : Prop :=
  ∀ (less : DependencyNode → DependencyNode → Bool) (l : List DependencyNode),
    (sortSlice less l).Perm l ∧
    ((∀ a b, less a b = true → less b a = false) →
      (∀ a b c, less a b = false → less b c = false → less a c = false) →
      (sortSlice less l).Pairwise (fun a b => less b a = false))

/-- The copy `DependencyLink{TargetPath: resolvedPath, ...imp}` made for each import. -/
def resolvedLink (imp : DependencyLink) (resolvedPath : Str) : DependencyLink :=
  { TargetPath := resolvedPath
    ImportType := imp.ImportType
    ImportNames := imp.ImportNames
    LineNumber := imp.LineNumber
    IsExternal := imp.IsExternal }

/-- The value stored in `allDeps[path]` by the first loop. -/
def fileDeps (repoFiles : List (Str × Str)) (path content : Str) : List Str :=
  (extractImports content (getLanguage path)).foldl (fun depPaths imp =>
    depPaths ++ [resolveImportPath path imp.TargetPath repoFiles]) []

/-- The node stored in `allNodes[path]` by the first loop (importance not yet set). -/
def fileNode (repoFiles : List (Str × Str)) (path content : Str) : DependencyNode :=
  let fileLang := getLanguage path
  let imports := extractImports content fileLang
  let exports := extractExports content fileLang
  let node : DependencyNode :=
    { Path := path
      Name := getFileName path
      Type_ := getFileType path
      Language := fileLang
      Exports := exports }
  imports.foldl (fun node imp =>
    { node with
      Dependencies := node.Dependencies ++
        [resolvedLink imp (resolveImportPath path imp.TargetPath repoFiles)] }) node

/-- The map `allDeps` after the first loop. -/
def buildAllDeps (repoFiles : List (Str × Str)) : List (Str × List Str) :=
  repoFiles.map (fun e => (e.1, fileDeps repoFiles e.1 e.2))

/-- The map `allNodes` after the second loop, which sets the importance of each node. -/
def buildAllNodes (repoFiles : List (Str × Str)) : List (Str × DependencyNode) :=
  let allDeps := buildAllDeps repoFiles
  (repoFiles.map (fun e => (e.1, fileNode repoFiles e.1 e.2))).map (fun e =>
    (e.1, { e.2 with Importance := calculateImportance e.2 allDeps }))

/-- The state of the loop over the imports of the source file: the links of the source
node, the `dependencies` slice and the `seenDeps` set. -/
structure DepState where
  links : List DependencyLink := []
  dependencies : List DependencyNode := []
  seenDeps : List Str := []

/-- One turn of the loop over `sourceImports`. -/
def depStep (req : BridgeRequest) (language : Str) (allNodes : List (Str × DependencyNode))
    (st : DepState) (imp : DependencyLink) : DepState :=
  let resolvedPath := resolveImportPath req.FilePath imp.TargetPath req.RepoFiles
  if resolvedPath ∈ st.seenDeps then st
  else
    { links := st.links ++ [resolvedLink imp resolvedPath]
      seenDeps := resolvedPath :: st.seenDeps
      dependencies :=
        match allNodes.lookup resolvedPath with
        | some node => st.dependencies ++ [node]
        | none =>
          st.dependencies ++ [{
            Path := resolvedPath
            Name := getFileName resolvedPath
            Type_ := "external".toList
            Importance := 0
            Language := language }] }

/-- One turn of the loop over `allDeps` that collects the dependents; the inner loop
stops at the first dependency equal to the source path. -/
def dependentStep (req : BridgeRequest) (allNodes : List (Str × DependencyNode))
    (st : List DependencyNode × List Str) (e : Str × List Str) :
    List DependencyNode × List Str :=
  if e.1 = req.FilePath then st
  else
    match e.2.find? (fun dep => decide (dep = req.FilePath ∧ ¬ e.1 ∈ st.2)) with
    | some _ =>
      match allNodes.lookup e.1 with
      | some node => (st.1 ++ [node], e.1 :: st.2)
      | none => (st.1, e.1 :: st.2)
    | none => st

/-- The loop over `sourceImports`: the links of the source node and the `dependencies`
slice before sorting. -/
def collectDependencies (req : BridgeRequest) : DepState :=
  let language := getLanguage req.FilePath
  (extractImports req.FileContent language).foldl
    (depStep req language (buildAllNodes req.RepoFiles)) {}

/-- The loop over `allDeps`: the `dependents` slice before sorting. -/
def collectDependents (req : BridgeRequest) : List DependencyNode :=
  ((buildAllDeps req.RepoFiles).foldl
    (dependentStep req (buildAllNodes req.RepoFiles)) ([], [])).1

/-- The function `analyzeBridge`. -/
def analyzeBridge (sortSlice : SortSlice) (req : BridgeRequest) : BridgeResponse :=
  let language := getLanguage req.FilePath
  let sourceExports := extractExports req.FileContent language
  let allDeps := buildAllDeps req.RepoFiles
  let sourceNode : DependencyNode :=
    { Path := req.FilePath
      Name := getFileName req.FilePath
      Type_ := getFileType req.FilePath
      Language := language
      Exports := sourceExports }
  let st := collectDependencies req
  let sourceNode := { sourceNode with Dependencies := st.links }
  let dependencies := st.dependencies
  let dependents := collectDependents req
  let dependencies := sortSlice importanceLess dependencies
  let dependents := sortSlice importanceLess dependents
  let sourceNode := { sourceNode with Importance := calculateImportance sourceNode allDeps }
  let totalEdges := dependencies.length + dependents.length
  { SourceFile := sourceNode
    Dependencies := dependencies
    Dependents := dependents
    TotalNodes := dependencies.length + dependents.length + 1
    TotalEdges := totalEdges }

/-- A stable insertion sort, as `sort.Slice` runs on short slices. -/
def insertionSortSlice : SortSlice :=
  fun less l => l.insertionSort (fun a b => less b a = false)

/-! ## Definitions used to state the properties -/

/-- The comma-split, trimmed, blank-dropped pieces of a name list. -/
def splitNames (l : Str) : List Str :=
  ((strings.Split l ',').map strings.TrimSpace).filter (fun n => decide (n ≠ []))

/-- The bonus of the path category in `calculateImportance`. -/
def roleBonus (path : Str) : Nat :=
  if strings.Contains path "/lib/".toList ∨ strings.Contains path "/utils/".toList then 5
  else if strings.Contains path "/components/".toList then 3
  else if strings.Contains path "/types/".toList then 4
  else 0

/-- The importance formula in the words of the specification: ten for each file other
than the node itself whose dependency list contains the path of the node, two for each
export, and the bonus of the path category. -/
def importanceFormula (node : DependencyNode) (allDeps : List (Str × List Str)) : Nat :=
  10 * (allDeps.filter (fun e => decide (e.1 ≠ node.Path ∧ node.Path ∈ e.2))).length +
    2 * node.Exports.length + roleBonus node.Path

/-- The node stored in `allNodes` for a snapshot entry, with its importance. -/
def finalNode (repoFiles : List (Str × Str)) (e : Str × Str) : DependencyNode :=
  { fileNode repoFiles e.1 e.2 with
    Importance := calculateImportance (fileNode repoFiles e.1 e.2) (buildAllDeps repoFiles) }

/-- The dependents as a filter over the snapshot: the entries other than the source file
whose resolved imports name the source path. -/
def dependentOf (req : BridgeRequest) (e : Str × Str) : Option DependencyNode :=
  if e.1 ≠ req.FilePath ∧ req.FilePath ∈ fileDeps req.RepoFiles e.1 e.2 then
    some (finalNode req.RepoFiles e)
  else none

/-- A snapshot in which `src/a.ts` and `src/c.ts` both import `src/b.ts`, the second
one twice. -/
def snapshotAC : List (Str × Str) :=
  [("src/a.ts".toList, "import './b'".toList), ("src/b.ts".toList, []),
    ("src/c.ts".toList, "import './b'\nimport \x7b b \x7d from './b'".toList)]

/-- The request to analyse `src/b.ts` against a snapshot. -/
def requestB (repoFiles : List (Str × Str)) : BridgeRequest :=
  { FilePath := "src/b.ts".toList, FileContent := [], RepoFiles := repoFiles }

/-- The request to analyse `src/c.ts`, which imports `src/b.ts` twice. -/
def requestC : BridgeRequest :=
  { FilePath := "src/c.ts".toList
    FileContent := "import './b'\nimport \x7b b \x7d from './b'".toList
    RepoFiles := snapshotAC }

/-- The language tags that have an entry in the pattern catalog. -/
def catalogLanguages : List Str :=
  ["typescript".toList, "javascript".toList, "python".toList, "go".toList, "rust".toList]

/-- The import kinds enumerated on the `ImportType` field. -/
def importKinds : List Str :=
  ["default".toList, "named".toList, "namespace".toList, "sideEffect".toList]

/-- The bonus that the role returned by `getFileType` would give, in the words of the
specification. -/
def roleBonusOfType (role : Str) : Nat :=
  if role = "utility".toList then 5
  else if role = "component".toList then 3
  else if role = "type".toList then 4
  else 0

/-- The suffix table of the language classifier, in the order of the `switch`. -/
def languageTable : List (Str × Str) :=
  [(".ts".toList, "typescript".toList), (".tsx".toList, "typescript".toList),
    (".js".toList, "javascript".toList), (".jsx".toList, "javascript".toList),
    (".mjs".toList, "javascript".toList), (".py".toList, "python".toList),
    (".go".toList, "go".toList), (".rs".toList, "rust".toList),
    (".css".toList, "css".toList), (".scss".toList, "css".toList),
    (".sass".toList, "css".toList), (".json".toList, "json".toList)]

/-- The eight language tags. -/
def languageTags : List Str :=
  ["typescript".toList, "javascript".toList, "python".toList, "go".toList, "rust".toList,
    "css".toList, "json".toList, "unknown".toList]

/-- The tag of the first row of a suffix table whose suffix ends the text, `unknown`
when there is none. -/
def firstTag : List (Str × Str) → Str → Str
  | [], _ => "unknown".toList
  | e :: es, ext => if strings.HasSuffix ext e.1 = true then e.2 else firstTag es ext

/-- The file name of a path in the words of the specification: the characters after the
last `/`, the whole path when it has none. -/
def fileNameOf (path : Str) : Str :=
  (path.reverse.takeWhile (fun c => decide (c ≠ '/'))).reverse

/-- The rules of the role classifier, in the words of the specification and in its
order; each rule is a test on the path (or on its file name, the characters after the
last `/`) and the role it gives. -/
def roleRules : List ((Str → Bool) × Str) :=
  [(fun path => strings.Contains path "/components/".toList, "component".toList),
    (fun path => strings.Contains path "/lib/".toList ||
      strings.Contains path "/utils/".toList, "utility".toList),
    (fun path => strings.Contains path "/types/".toList, "type".toList),
    (fun path => strings.Contains path "/api/".toList, "api".toList),
    (fun path => strings.Contains path "/app/".toList &&
      (strings.HasSuffix (fileNameOf path) "page.tsx".toList ||
        strings.HasSuffix (fileNameOf path) "page.ts".toList), "page".toList),
    (fun path => strings.HasSuffix (fileNameOf path) ".config.ts".toList ||
      strings.HasSuffix (fileNameOf path) ".config.js".toList ||
      strings.HasSuffix (fileNameOf path) ".json".toList, "config".toList),
    (fun path => strings.HasSuffix (fileNameOf path) ".css".toList ||
      strings.HasSuffix (fileNameOf path) ".scss".toList, "style".toList)]

/-- The role of the first rule that matches, `file` when none does. -/
def firstRole : List ((Str → Bool) × Str) → Str → Str
  | [], _ => "file".toList
  | r :: rs, path => if r.1 path = true then r.2 else firstRole rs path

/-- The eight roles of the role classifier. -/
def fileRoles : List Str :=
  ["component".toList, "utility".toList, "type".toList, "api".toList, "page".toList,
    "config".toList, "style".toList, "file".toList]

/-- Keep the names not yet seen, each at its first occurrence. -/
def keepFirstFrom (seen : List Str) : List Str → List Str
  | [] => []
  | x :: xs =>
    if x ∈ seen then keepFirstFrom seen xs else x :: keepFirstFrom (x :: seen) xs

/-- Keep only the first occurrence of each name, in order. -/
def keepFirst (l : List Str) : List Str := keepFirstFrom [] l

/-- The names that the export patterns propose, pattern by pattern in catalog order and
match by match: the comma-split, trimmed, blank-dropped pieces of the first capture
group of each match that has one. -/
def exportCandidates (content language : Str) : List Str :=
  match languagePatterns language with
  | none => []
  | some patterns =>
    patterns.Exports.flatMap (fun re =>
      (re.FindAllStringSubmatch content).flatMap (fun m =>
        if m.length ≥ 2 then splitNames (m.getD 1 []) else []))

/-- One turn of the innermost loop of `extractExports` on a trimmed, non-blank name. -/
def addName (st : List Str × List Str) (name : Str) : List Str × List Str :=
  if ¬ name ∈ st.2 then (st.1 ++ [name], name :: st.2) else st

/-- The synthetic node of a resolved path that is no key of the snapshot: its file name,
role `external`, importance 0, the given language, no exports and no links. -/
def syntheticNode (resolvedPath language : Str) : DependencyNode :=
  { Path := resolvedPath
    Name := fileNameOf resolvedPath
    Type_ := "external".toList
    Importance := 0
    Language := language }

/-- The snapshot node of a path, field by field: its file name (the characters after the
last `/`), its role, its language, its exports, one link for each extracted import with
the resolved path as target and the kind, names, line and externality of the import, and
the importance computed over the resolved imports of every file of the snapshot. -/
def snapshotNode (repoFiles : List (Str × Str)) (path content : Str) : DependencyNode :=
  { Path := path
    Name := fileNameOf path
    Type_ := getFileType path
    Language := getLanguage path
    Exports := extractExports content (getLanguage path)
    Dependencies := (extractImports content (getLanguage path)).map (fun imp =>
      { TargetPath := resolveImportPath path imp.TargetPath repoFiles
        ImportType := imp.ImportType
        ImportNames := imp.ImportNames
        LineNumber := imp.LineNumber
        IsExternal := imp.IsExternal })
    Importance :=
      calculateImportance
        { Path := path, Exports := extractExports content (getLanguage path) }
        (repoFiles.map (fun e => (e.1,
          (extractImports e.2 (getLanguage e.1)).map (fun imp =>
            resolveImportPath e.1 imp.TargetPath repoFiles)))) }

/-- A snapshot in which `src/t.ts` and `src/b.ts` import each other. -/
def snapshotCycle : List (Str × Str) :=
  [("src/t.ts".toList, "import './b'".toList), ("src/b.ts".toList, "import './t'".toList)]

/-- The request to analyse `src/t.ts` in `snapshotCycle`. -/
def requestCycle : BridgeRequest :=
  { FilePath := "src/t.ts".toList, FileContent := "import './b'".toList,
    RepoFiles := snapshotCycle }

/-- The request to analyse `src/s.ts`, which imports itself. -/
def requestSelf : BridgeRequest :=
  { FilePath := "src/s.ts".toList, FileContent := "import './s'".toList,
    RepoFiles := [("src/s.ts".toList, "import './s'".toList)] }

/-- The paths that a response touches: the target, the dependencies, the dependents. -/
def touchedPaths (req : BridgeRequest) (resp : BridgeResponse) : List Str :=
  req.FilePath :: (resp.Dependencies.map (fun n => n.Path) ++
    resp.Dependents.map (fun n => n.Path))

/-- The request to analyse `src/x.ts`, which imports `./c` (a snapshot file with two
imports of its own) and the package `react`. -/
def requestMixed : BridgeRequest :=
  { FilePath := "src/x.ts".toList, FileContent := "import './c'\nimport 'react'".toList,
    RepoFiles := snapshotAC }

/-! # Properties -/

/-! ## Import parsing -/

theorem appendTrimmed_eq (acc names : List Str) :
    appendTrimmed acc names =
      acc ++ (names.map strings.TrimSpace).filter (fun n => decide (n ≠ [])) := by
  unfold appendTrimmed
  induction names generalizing acc with
  | nil => simp
  | cons n ns ih =>
    simp only [List.foldl_cons, List.map_cons]
    rw [ih]
    by_cases h : strings.TrimSpace n = []
    · simp [h]
    · simp [h]

/-- C1, as amended: for a TypeScript/JavaScript combined-form match (three capture
groups) whose default-binding group and named-binding group are both non-empty, the
link has kind `named`, target the path group, the given line number, and a name list
that is the default binding followed by the comma-split, trimmed, blank-dropped
identifiers of the named group. -/
theorem parseDependencyMatch_named_over_default (language whole d n p : Str) (lineNum : Nat)
    (hl : language = "typescript".toList ∨ language = "javascript".toList)
    (hd : d ≠ []) (hn : n ≠ []) :
    parseDependencyMatch [whole, d, n, p] language lineNum =
      { TargetPath := p
        ImportType := "named".toList
        ImportNames := d :: splitNames n
        LineNumber := lineNum
        IsExternal := isExternalDependency p language } := by
  rcases hl with rfl | rfl <;>
    simp [parseDependencyMatch, hd, hn, appendTrimmed_eq, splitNames]

/-- The amended C1 at the match of `import Foo, { Bar, Baz } from './x'` on line 3. -/
theorem parseDependencyMatch_named_over_default_witness :
    ("typescript".toList = "typescript".toList ∨ "typescript".toList = "javascript".toList) ∧
    "Foo".toList ≠ [] ∧ " Bar, Baz ".toList ≠ [] ∧
    parseDependencyMatch ["import Foo, \x7b Bar, Baz \x7d from './x'".toList, "Foo".toList,
        " Bar, Baz ".toList, "./x".toList] "typescript".toList 3 =
      { TargetPath := "./x".toList
        ImportType := "named".toList
        ImportNames := "Foo".toList :: splitNames " Bar, Baz ".toList
        LineNumber := 3
        IsExternal := isExternalDependency "./x".toList "typescript".toList } :=
  ⟨by decide, by decide, by decide,
    parseDependencyMatch_named_over_default _ _ _ _ _ 3 (by decide) (by decide) (by decide)⟩

set_option maxRecDepth 100000 in
/-- C1 fails as stated: the line `import Foo, { Bar, Baz } from './x'` on line 3 yields
one link of kind `named` whose names are `[Foo, Bar, Baz]`, not the identifiers
`[Bar, Baz]` of the named group alone. -/
theorem extractImports_keeps_default_name :
    extractImports "\n\nimport Foo, \x7b Bar, Baz \x7d from './x'".toList "typescript".toList =
      [{ TargetPath := "./x".toList
         ImportType := "named".toList
         ImportNames := ["Foo".toList, "Bar".toList, "Baz".toList]
         LineNumber := 3
         IsExternal := false }] ∧
    splitNames " Bar, Baz ".toList = ["Bar".toList, "Baz".toList] ∧
    (parseDependencyMatch ["import Foo, \x7b Bar, Baz \x7d from './x'".toList, "Foo".toList,
        " Bar, Baz ".toList, "./x".toList] "typescript".toList 3).ImportNames ≠
      splitNames " Bar, Baz ".toList := by
  decide

/-! ## Importance -/

theorem foldl_count_deps (path : Str) (deps : List Str) (init : Nat) :
    deps.foldl (fun importance dep => if dep = path then importance + 10 else importance) init =
      init + 10 * deps.count path := by
  induction deps generalizing init with
  | nil => simp
  | cons d ds ih =>
    simp only [List.foldl_cons, ih, List.count_cons]
    by_cases h : d = path
    · simp [h]; ring
    · simp [h]

theorem foldl_count_allDeps (path : Str) (allDeps : List (Str × List Str)) (init : Nat) :
    allDeps.foldl (fun importance e =>
      e.2.foldl (fun importance dep =>
        if dep = path then importance + 10 else importance) importance) init =
      init + 10 * (allDeps.map (fun e => e.2.count path)).sum := by
  induction allDeps generalizing init with
  | nil => simp
  | cons e es ih =>
    rw [List.foldl_cons, ih, foldl_count_deps, List.map_cons, List.sum_cons]
    ring

/-- What the code computes: ten for every occurrence of the path in any dependency list,
two for each export, and the bonus of the path category. -/
theorem calculateImportance_eq (node : DependencyNode) (allDeps : List (Str × List Str)) :
    calculateImportance node allDeps =
      10 * (allDeps.map (fun e => e.2.count node.Path)).sum +
        2 * node.Exports.length + roleBonus node.Path := by
  unfold calculateImportance roleBonus
  simp only [foldl_count_allDeps]
  split_ifs <;> ring

/-- The code agrees with the formula of the specification when no file imports itself
and no dependency list names the path twice. -/
theorem calculateImportance_eq_formula (node : DependencyNode)
    (allDeps : List (Str × List Str))
    (h : ∀ e ∈ allDeps, e.1 ≠ node.Path ∧ e.2.count node.Path ≤ 1) :
    calculateImportance node allDeps = importanceFormula node allDeps := by
  rw [calculateImportance_eq, importanceFormula]
  congr 2
  congr 1
  induction allDeps with
  | nil => simp
  | cons e es ih =>
    have he := h e (List.mem_cons_self _ _)
    have ih := ih (fun x hx => h x (List.mem_cons_of_mem _ hx))
    simp only [List.map_cons, List.sum_cons, ih, List.filter_cons]
    by_cases hm : node.Path ∈ e.2
    · have : e.2.count node.Path = 1 :=
        le_antisymm he.2 (List.count_pos_iff.mpr hm)
      simp [hm, he.1, this]; ring
    · simp [hm, List.count_eq_zero_of_not_mem hm]

/-- C2: the code adds ten for every occurrence of the path, so a file that names the
target twice scores 20 where the formula gives 10, and a file that imports itself scores
10 where the formula gives 0; the example of the specification (three importing files,
four exports, a path under `/lib/`) scores 43. -/
theorem calculateImportance_counts_every_occurrence :
    calculateImportance { Path := "src/b.ts".toList }
        [("src/c.ts".toList, ["src/b.ts".toList, "src/b.ts".toList])] = 20 ∧
    importanceFormula { Path := "src/b.ts".toList }
        [("src/c.ts".toList, ["src/b.ts".toList, "src/b.ts".toList])] = 10 ∧
    calculateImportance { Path := "src/b.ts".toList }
        [("src/b.ts".toList, ["src/b.ts".toList])] = 10 ∧
    importanceFormula { Path := "src/b.ts".toList }
        [("src/b.ts".toList, ["src/b.ts".toList])] = 0 ∧
    calculateImportance
        { Path := "src/lib/u.ts".toList,
          Exports := ["a".toList, "b".toList, "c".toList, "d".toList] }
        [("src/x.ts".toList, ["src/lib/u.ts".toList]),
          ("src/y.ts".toList, ["src/lib/u.ts".toList]),
          ("src/z.ts".toList, ["src/lib/u.ts".toList])] = 43 := by
  decide

/-! ## Path resolution -/

theorem probe_first (c : Str) (repoFiles : List (Str × Str)) (pre post : List Str) (s : Str)
    (hs : hasKey repoFiles (c ++ s) = true)
    (hpre : ∀ t ∈ pre, hasKey repoFiles (c ++ t) = false) :
    probe c repoFiles (pre ++ s :: post) = some (c ++ s) := by
  induction pre with
  | nil => simp [probe, hs]
  | cons e es ih =>
    have he := hpre e (List.mem_cons_self _ _)
    simp only [List.cons_append, probe, he]
    exact ih (fun t ht => hpre t (List.mem_cons_of_mem _ ht))

theorem probe_none (c : Str) (repoFiles : List (Str × Str)) (exts : List Str)
    (h : ∀ t ∈ exts, hasKey repoFiles (c ++ t) = false) :
    probe c repoFiles exts = none := by
  induction exts with
  | nil => rfl
  | cons e es ih =>
    simp only [probe, h e (List.mem_cons_self _ _)]
    exact ih (fun t ht => h t (List.mem_cons_of_mem _ ht))

theorem not_external_of_local (importPath : Str)
    (h : strings.HasPrefix importPath ".".toList = true ∨
      strings.HasPrefix importPath "@/".toList = true ∨
      strings.HasPrefix importPath "~/".toList = true) :
    isExternalDependency importPath "typescript".toList = false := by
  unfold isExternalDependency
  rw [if_pos (Or.inl rfl)]
  rcases h with h | h | h <;> rw [h] <;> simp

/-- C3: for an import specifier that starts with `.`, `@/` or `~/`, with `c` the cleaned
path, the result is `c ++ s` for the first suffix `s` of the ordered list `extensions`
such that `c ++ s` is a key of the snapshot (and is then a key of the snapshot), and it
is `c` itself when none of the nine candidates is a key. -/
theorem resolveImportPath_probe (sourcePath importPath : Str) (repoFiles : List (Str × Str))
    (h : strings.HasPrefix importPath ".".toList = true ∨
      strings.HasPrefix importPath "@/".toList = true ∨
      strings.HasPrefix importPath "~/".toList = true) :
    (∀ (pre post : List Str) (s : Str), extensions = pre ++ s :: post →
      hasKey repoFiles (cleanPath (resolveRelative sourcePath importPath) ++ s) = true →
      (∀ t ∈ pre, hasKey repoFiles (cleanPath (resolveRelative sourcePath importPath) ++ t)
        = false) →
      resolveImportPath sourcePath importPath repoFiles =
        cleanPath (resolveRelative sourcePath importPath) ++ s ∧
      hasKey repoFiles (resolveImportPath sourcePath importPath repoFiles) = true) ∧
    ((∀ t ∈ extensions,
        hasKey repoFiles (cleanPath (resolveRelative sourcePath importPath) ++ t) = false) →
      resolveImportPath sourcePath importPath repoFiles =
        cleanPath (resolveRelative sourcePath importPath)) := by
  have hx := not_external_of_local importPath h
  refine ⟨?_, ?_⟩
  · intro pre post s hext hs hpre
    have hp := probe_first _ repoFiles pre post s hs hpre
    rw [← hext] at hp
    have hr : resolveImportPath sourcePath importPath repoFiles =
        cleanPath (resolveRelative sourcePath importPath) ++ s := by
      unfold resolveImportPath
      rw [hx]
      simp only [Bool.false_eq_true, if_false, hp]
    exact ⟨hr, by rw [hr]; exact hs⟩
  · intro hnone
    have hp := probe_none _ repoFiles extensions hnone
    unfold resolveImportPath
    rw [hx]
    simp only [Bool.false_eq_true, if_false, hp]

/-- C3 at source `src/a.ts` importing `./b`: with the key `src/b.ts` present and `src/b`
absent the result is `src/b.ts`, and with an empty snapshot it is `src/b`. -/
theorem resolveImportPath_probe_witness :
    (strings.HasPrefix "./b".toList ".".toList = true ∨
      strings.HasPrefix "./b".toList "@/".toList = true ∨
      strings.HasPrefix "./b".toList "~/".toList = true) ∧
    cleanPath (resolveRelative "src/a.ts".toList "./b".toList) = "src/b".toList ∧
    resolveImportPath "src/a.ts".toList "./b".toList [("src/b.ts".toList, [])] =
      "src/b.ts".toList ∧
    resolveImportPath "src/a.ts".toList "./b".toList [] = "src/b".toList := by
  have hloc : strings.HasPrefix "./b".toList ".".toList = true ∨
      strings.HasPrefix "./b".toList "@/".toList = true ∨
      strings.HasPrefix "./b".toList "~/".toList = true := by decide
  have hc : cleanPath (resolveRelative "src/a.ts".toList "./b".toList) = "src/b".toList := by
    decide
  have h1 := (resolveImportPath_probe "src/a.ts".toList "./b".toList
    [("src/b.ts".toList, [])] hloc).1 ["".toList] (extensions.drop 2) ".ts".toList
  refine ⟨hloc, hc, ?_, ?_⟩
  · have h3 := (h1 (by decide) (by decide) (by decide)).1
    rw [h3, hc]
    decide
  · have h2 := (resolveImportPath_probe "src/a.ts".toList "./b".toList [] hloc).2
      (by decide)
    rw [h2, hc]

/-- The part of C4 that holds: for an import that begins with `../`, the path before the
clean-up is the source directory without its last `upCount` segments joined with the
remaining import segments when `upCount` is at most the number of segments that
`strings.Split` finds in the source directory, and it is empty otherwise. -/
theorem resolveRelative_parent (sourcePath importPath : Str)
    (h : strings.HasPrefix importPath "../".toList = true) :
    resolveRelative sourcePath importPath =
      if upCountOf (strings.Split importPath '/') ≤
          (strings.Split (sourceDirOf sourcePath) '/').length then
        strings.Join ((strings.Split (sourceDirOf sourcePath) '/').take
          ((strings.Split (sourceDirOf sourcePath) '/').length -
            upCountOf (strings.Split importPath '/'))) "/".toList ++ "/".toList ++
          strings.Join ((strings.Split importPath '/').drop
            (upCountOf (strings.Split importPath '/'))) "/".toList
      else [] := by
  have hp : ∃ t, importPath = '.' :: '.' :: '/' :: t := by
    simp only [strings.HasPrefix] at h
    obtain ⟨t, ht⟩ := List.isPrefixOf_iff_prefix.mp h
    exact ⟨t, ht.symm⟩
  obtain ⟨t, rfl⟩ := hp
  unfold resolveRelative
  have h1 : strings.HasPrefix ('.' :: '.' :: '/' :: t) "@/".toList = false := by
    simp [strings.HasPrefix, List.isPrefixOf]
  have h2 : strings.HasPrefix ('.' :: '.' :: '/' :: t) "./".toList = false := by
    simp [strings.HasPrefix, List.isPrefixOf]
  simp only [h1, h2, h, Bool.false_eq_true, if_false, if_true]

/-- With a source directory of at least one real segment the guard of C4 works: an
empty resolution stays empty against an empty snapshot. -/
theorem resolveImportPath_parent_too_high (sourcePath importPath : Str)
    (h : strings.HasPrefix importPath "../".toList = true)
    (hk : (strings.Split (sourceDirOf sourcePath) '/').length <
      upCountOf (strings.Split importPath '/')) :
    resolveImportPath sourcePath importPath [] = [] := by
  have hloc : isExternalDependency importPath "typescript".toList = false := by
    apply not_external_of_local
    left
    simp only [strings.HasPrefix] at h ⊢
    obtain ⟨t, ht⟩ := List.isPrefixOf_iff_prefix.mp h
    rw [← ht]
    simp [List.isPrefixOf]
  have hn : ¬ upCountOf (strings.Split importPath '/') ≤
      (strings.Split (sourceDirOf sourcePath) '/').length := by omega
  unfold resolveImportPath
  rw [hloc, resolveRelative_parent sourcePath importPath h, if_neg hn]
  have hp : probe (cleanPath []) [] extensions = none := by decide
  simp only [Bool.false_eq_true, if_false, hp]
  decide

/-- C4: source `a.ts` has no directory, yet `strings.Split` of the empty directory has one
(empty) segment, so the one leading `..` of `../b` passes the guard and the function
returns `b` instead of the empty string; with a real directory the guard works:
`src/a.ts` importing `../../b` resolves to the empty string. -/
theorem resolveImportPath_parent_of_bare_source :
    resolveImportPath "a.ts".toList "../b".toList [] = "b".toList ∧
    upCountOf (strings.Split "../b".toList '/') = 1 ∧
    sourceDirOf "a.ts".toList = [] ∧
    (strings.Split (sourceDirOf "a.ts".toList) '/').length = 1 ∧
    resolveImportPath "src/a.ts".toList "../../b".toList [] = [] := by
  decide

/-- C5: the single replacement pass leaves a doubled separator when three separators
meet (`src/a.ts` importing `.///b` gives `src//b`), and the single strip leaves a
leading separator when the path starts with four (`a.ts` importing `.////b` gives
`/b`). -/
theorem resolveImportPath_leaves_separators :
    resolveImportPath "src/a.ts".toList ".///b".toList [] = "src//b".toList ∧
    strings.Contains (resolveImportPath "src/a.ts".toList ".///b".toList []) "//".toList
      = true ∧
    resolveImportPath "a.ts".toList ".////b".toList [] = "/b".toList ∧
    strings.HasPrefix (resolveImportPath "a.ts".toList ".////b".toList []) "/".toList
      = true := by
  decide

/-! ## The analysis -/

theorem foldl_append_singleton {α β : Type} (f : α → β) (l : List α) (acc : List β) :
    l.foldl (fun acc x => acc ++ [f x]) acc = acc ++ l.map f := by
  induction l generalizing acc with
  | nil => simp
  | cons x xs ih => simp [ih]

theorem fileDeps_eq_map (repoFiles : List (Str × Str)) (path content : Str) :
    fileDeps repoFiles path content =
      (extractImports content (getLanguage path)).map
        (fun imp => resolveImportPath path imp.TargetPath repoFiles) := by
  unfold fileDeps
  rw [foldl_append_singleton]
  simp

theorem fileNode_foldl_Path (f : DependencyLink → DependencyLink) (l : List DependencyLink)
    (node : DependencyNode) :
    (l.foldl (fun node imp =>
      { node with Dependencies := node.Dependencies ++ [f imp] }) node).Path = node.Path := by
  induction l generalizing node with
  | nil => rfl
  | cons x xs ih => simp only [List.foldl_cons]; rw [ih]

theorem fileNode_Path (repoFiles : List (Str × Str)) (path content : Str) :
    (fileNode repoFiles path content).Path = path := by
  unfold fileNode
  simp only
  rw [fileNode_foldl_Path (fun imp => resolvedLink imp (resolveImportPath path imp.TargetPath repoFiles))]

theorem finalNode_Path (repoFiles : List (Str × Str)) (e : Str × Str) :
    (finalNode repoFiles e).Path = e.1 := by
  unfold finalNode
  exact fileNode_Path repoFiles e.1 e.2

theorem buildAllNodes_eq (repoFiles : List (Str × Str)) :
    buildAllNodes repoFiles = repoFiles.map (fun e => (e.1, finalNode repoFiles e)) := by
  unfold buildAllNodes finalNode
  simp [List.map_map, Function.comp_def]

theorem lookup_map_Path {β : Type} (l : List (Str × Str)) (f : Str × Str → β) (p : Str) (b : β)
    (h : (l.map (fun e => (e.1, f e))).lookup p = some b) : ∃ e ∈ l, e.1 = p ∧ f e = b := by
  induction l with
  | nil => simp at h
  | cons x xs ih =>
    simp only [List.map_cons, List.lookup_cons] at h
    by_cases hx : p == x.1
    · simp only [hx] at h
      exact ⟨x, List.mem_cons_self _ _, (eq_of_beq hx).symm, Option.some.inj h⟩
    · simp only [hx] at h
      obtain ⟨e, he, h1, h2⟩ := ih h
      exact ⟨e, List.mem_cons_of_mem _ he, h1, h2⟩

theorem lookup_map_of_mem {β : Type} (l : List (Str × Str)) (f : Str × Str → β)
    (hk : (l.map Prod.fst).Nodup) (e : Str × Str) (he : e ∈ l) :
    (l.map (fun e => (e.1, f e))).lookup e.1 = some (f e) := by
  induction l with
  | nil => simp at he
  | cons x xs ih =>
    simp only [List.map_cons, List.nodup_cons] at hk
    simp only [List.map_cons, List.lookup_cons]
    rcases List.mem_cons.mp he with rfl | hmem
    · simp
    · have hne : (e.1 == x.1) = false := by
        apply beq_false_of_ne
        intro heq
        exact hk.1 (heq ▸ List.mem_map_of_mem Prod.fst hmem)
      simp only [hne]
      exact ih hk.2 hmem

theorem buildAllNodes_lookup_Path (repoFiles : List (Str × Str)) (p : Str) (node : DependencyNode)
    (h : (buildAllNodes repoFiles).lookup p = some node) : node.Path = p := by
  rw [buildAllNodes_eq] at h
  obtain ⟨e, _, h1, h2⟩ := lookup_map_Path _ _ _ _ h
  rw [← h2, finalNode_Path, h1]

theorem find_dep_isSome (target key : Str) (deps seen : List Str) (hs : key ∉ seen) :
    (deps.find? (fun dep => decide (dep = target ∧ ¬ key ∈ seen))).isSome = decide (target ∈ deps) := by
  induction deps with
  | nil => simp
  | cons d ds ih =>
    simp only [List.find?_cons]
    by_cases hd : d = target
    · simp [hd, hs]
    · have : decide (d = target ∧ ¬ key ∈ seen) = false := by simp [hd]
      rw [this]
      simp only [ih, List.mem_cons]
      have hne : ¬ target = d := fun h => hd h.symm
      simp [hne]

theorem dependents_foldl (req : BridgeRequest) (allNodes : List (Str × DependencyNode))
    (l : List (Str × Str)) (hk : (l.map Prod.fst).Nodup)
    (hl : ∀ e ∈ l, allNodes.lookup e.1 = some (finalNode req.RepoFiles e))
    (acc : List DependencyNode) (seen : List Str) (hseen : ∀ e ∈ l, e.1 ∉ seen) :
    ((l.map (fun e => (e.1, fileDeps req.RepoFiles e.1 e.2))).foldl
      (dependentStep req allNodes) (acc, seen)).1 = acc ++ l.filterMap (dependentOf req) := by
  induction l generalizing acc seen with
  | nil => simp
  | cons x xs ih =>
    simp only [List.map_cons, List.nodup_cons] at hk
    have hx := hseen x (List.mem_cons_self _ _)
    have hlx := hl x (List.mem_cons_self _ _)
    have hl2 : ∀ e ∈ xs, allNodes.lookup e.1 = some (finalNode req.RepoFiles e) :=
      fun e he => hl e (List.mem_cons_of_mem _ he)
    have hs2 : ∀ e ∈ xs, e.1 ∉ seen := fun e he => hseen e (List.mem_cons_of_mem _ he)
    have hs3 : ∀ e ∈ xs, e.1 ∉ x.1 :: seen := by
      intro e he hmem
      rcases List.mem_cons.mp hmem with h | h
      · exact hk.1 (h ▸ List.mem_map_of_mem Prod.fst he)
      · exact hs2 e he h
    simp only [List.map_cons, List.foldl_cons, List.filterMap_cons]
    have hfind := find_dep_isSome req.FilePath x.1 (fileDeps req.RepoFiles x.1 x.2) seen hx
    by_cases h1 : x.1 = req.FilePath
    · have hstep : dependentStep req allNodes (acc, seen)
          (x.1, fileDeps req.RepoFiles x.1 x.2) = (acc, seen) := by
        simp [dependentStep, h1]
      have hd : dependentOf req x = none := by simp [dependentOf, h1]
      rw [hstep, hd]
      exact ih hk.2 hl2 acc seen hs2
    · by_cases h2 : req.FilePath ∈ fileDeps req.RepoFiles x.1 x.2
      · have hsome : ∃ d, (fileDeps req.RepoFiles x.1 x.2).find?
            (fun dep => decide (dep = req.FilePath ∧ ¬ x.1 ∈ seen)) = some d := by
          rw [← Option.isSome_iff_exists, hfind]; simpa using h2
        obtain ⟨d, hd⟩ := hsome
        have hstep : dependentStep req allNodes (acc, seen)
            (x.1, fileDeps req.RepoFiles x.1 x.2) =
              (acc ++ [finalNode req.RepoFiles x], x.1 :: seen) := by
          simp only [dependentStep, h1, if_false, hd, hlx]
        have hdo : dependentOf req x = some (finalNode req.RepoFiles x) := by
          simp [dependentOf, h1, h2]
        rw [hstep, hdo, ih hk.2 hl2 _ _ hs3]
        simp
      · have hnone : (fileDeps req.RepoFiles x.1 x.2).find?
            (fun dep => decide (dep = req.FilePath ∧ ¬ x.1 ∈ seen)) = none := by
          rw [← Option.not_isSome_iff_eq_none, hfind]; simpa using h2
        have hstep : dependentStep req allNodes (acc, seen)
            (x.1, fileDeps req.RepoFiles x.1 x.2) = (acc, seen) := by
          simp only [dependentStep, h1, if_false, hnone]
        have hdo : dependentOf req x = none := by
          simp [dependentOf, h1, h2]
        rw [hstep, hdo]
        exact ih hk.2 hl2 acc seen hs2

/-- With pairwise distinct snapshot paths the `seenDependents` check never fires, and the
dependents loop is a filter over the snapshot. -/
theorem collectDependents_eq (req : BridgeRequest) (hk : (req.RepoFiles.map Prod.fst).Nodup) :
    collectDependents req = req.RepoFiles.filterMap (dependentOf req) := by
  unfold collectDependents buildAllDeps
  rw [dependents_foldl req _ req.RepoFiles hk ?_ [] [] (by simp)]
  · simp
  · intro e he
    rw [buildAllNodes_eq]
    exact lookup_map_of_mem _ _ hk e he

/-! ## The sorting contract -/

theorem importanceLess_asymm (a b : DependencyNode) (h : importanceLess a b = true) :
    importanceLess b a = false := by
  simp only [importanceLess, decide_eq_true_eq, decide_eq_false_iff_not] at *
  omega

theorem importanceLess_negtrans (a b c : DependencyNode) (h1 : importanceLess a b = false)
    (h2 : importanceLess b c = false) : importanceLess a c = false := by
  simp only [importanceLess, decide_eq_false_iff_not] at *
  omega

theorem insertionSortSlice_spec : SortSliceSpec insertionSortSlice := by
  intro less l
  refine ⟨List.perm_insertionSort _ l, ?_⟩
  intro hasymm htrans
  haveI : IsTotal DependencyNode (fun a b => less b a = false) := ⟨by
    intro a b
    cases h : less b a
    · exact Or.inl rfl
    · exact Or.inr (hasymm b a h)⟩
  haveI : IsTrans DependencyNode (fun a b => less b a = false) := ⟨by
    intro a b c hab hbc
    exact htrans c b a hbc hab⟩
  exact List.sorted_insertionSort (fun a b => less b a = false) l

theorem sortSlice_perm (sortSlice : SortSlice) (hs : SortSliceSpec sortSlice)
    (l : List DependencyNode) : (sortSlice importanceLess l).Perm l :=
  (hs importanceLess l).1

theorem sortSlice_sorted (sortSlice : SortSlice) (hs : SortSliceSpec sortSlice)
    (l : List DependencyNode) :
    (sortSlice importanceLess l).Pairwise (fun x y => x.Importance ≥ y.Importance) := by
  have h := (hs importanceLess l).2 importanceLess_asymm importanceLess_negtrans
  refine h.imp ?_
  intro a b hab
  simp only [importanceLess, decide_eq_false_iff_not] at hab
  omega

/-! ## Dependents -/

theorem dependents_paths (req : BridgeRequest) (l : List (Str × Str)) :
    (l.filterMap (dependentOf req)).map (fun n => n.Path) =
      (l.filter (fun e => decide (e.1 ≠ req.FilePath ∧
        req.FilePath ∈ fileDeps req.RepoFiles e.1 e.2))).map Prod.fst := by
  induction l with
  | nil => rfl
  | cons x xs ih =>
    simp only [List.filterMap_cons, List.filter_cons]
    by_cases h : x.1 ≠ req.FilePath ∧ req.FilePath ∈ fileDeps req.RepoFiles x.1 x.2
    · have hd : dependentOf req x = some (finalNode req.RepoFiles x) := by
        unfold dependentOf
        rw [if_pos h]
      rw [hd, decide_eq_true h]
      simp only [if_true, List.map_cons, ih, finalNode_Path]
    · have hd : dependentOf req x = none := by
        unfold dependentOf
        rw [if_neg h]
      rw [hd, decide_eq_false h]
      simp only [ih, Bool.false_eq_true, if_false]

/-- C7: with pairwise distinct snapshot paths, the paths of the returned dependents are
exactly the snapshot paths `p` other than the target path such that some import of `p`
resolves to the target path; each occurs once and the target path never occurs. -/
theorem analyzeBridge_dependents_correct (sortSlice : SortSlice)
    (hs : SortSliceSpec sortSlice) (req : BridgeRequest)
    (hk : (req.RepoFiles.map Prod.fst).Nodup) :
    (∀ p : Str, p ∈ (analyzeBridge sortSlice req).Dependents.map (fun n => n.Path) ↔
      p ≠ req.FilePath ∧ ∃ content, (p, content) ∈ req.RepoFiles ∧
        ∃ imp ∈ extractImports content (getLanguage p),
          resolveImportPath p imp.TargetPath req.RepoFiles = req.FilePath) ∧
    ((analyzeBridge sortSlice req).Dependents.map (fun n => n.Path)).Nodup ∧
    req.FilePath ∉ (analyzeBridge sortSlice req).Dependents.map (fun n => n.Path) := by
  have hperm : ((analyzeBridge sortSlice req).Dependents.map (fun n => n.Path)).Perm
      ((req.RepoFiles.filter (fun e => decide (e.1 ≠ req.FilePath ∧
        req.FilePath ∈ fileDeps req.RepoFiles e.1 e.2))).map Prod.fst) := by
    have h1 : (analyzeBridge sortSlice req).Dependents =
        sortSlice importanceLess (collectDependents req) := rfl
    rw [h1, ← dependents_paths, ← collectDependents_eq req hk]
    exact (sortSlice_perm sortSlice hs _).map _
  have hmem : ∀ p : Str, p ∈ (analyzeBridge sortSlice req).Dependents.map (fun n => n.Path) ↔
      p ≠ req.FilePath ∧ ∃ content, (p, content) ∈ req.RepoFiles ∧
        ∃ imp ∈ extractImports content (getLanguage p),
          resolveImportPath p imp.TargetPath req.RepoFiles = req.FilePath := by
    intro p
    rw [hperm.mem_iff]
    simp only [List.mem_map, List.mem_filter, decide_eq_true_eq, fileDeps_eq_map]
    constructor
    · rintro ⟨e, ⟨he, hne, imp, himp, hres⟩, rfl⟩
      exact ⟨hne, e.2, he, imp, himp, hres⟩
    · rintro ⟨hne, content, he, imp, himp, hres⟩
      exact ⟨(p, content), ⟨he, hne, imp, himp, hres⟩, rfl⟩
  refine ⟨hmem, ?_, ?_⟩
  · rw [hperm.nodup_iff]
    exact (hk.sublist ((List.filter_sublist _).map _))
  · intro h
    exact ((hmem _).mp h).1 rfl

/-! ## Dependencies -/

theorem depStep_seen (req : BridgeRequest) (language : Str)
    (allNodes : List (Str × DependencyNode)) (st : DepState) (imp : DependencyLink)
    (h : resolveImportPath req.FilePath imp.TargetPath req.RepoFiles ∈ st.seenDeps) :
    depStep req language allNodes st imp = st := by
  unfold depStep
  simp only [h, if_true]

theorem depStep_fresh (req : BridgeRequest) (language : Str)
    (allNodes : List (Str × DependencyNode))
    (hl : ∀ p node, allNodes.lookup p = some node → node.Path = p)
    (st : DepState) (imp : DependencyLink)
    (h : resolveImportPath req.FilePath imp.TargetPath req.RepoFiles ∉ st.seenDeps) :
    (depStep req language allNodes st imp).seenDeps =
        resolveImportPath req.FilePath imp.TargetPath req.RepoFiles :: st.seenDeps ∧
    (depStep req language allNodes st imp).links.map (fun k => k.TargetPath) =
        st.links.map (fun k => k.TargetPath) ++
          [resolveImportPath req.FilePath imp.TargetPath req.RepoFiles] ∧
    (depStep req language allNodes st imp).dependencies.map (fun n => n.Path) =
        st.dependencies.map (fun n => n.Path) ++
          [resolveImportPath req.FilePath imp.TargetPath req.RepoFiles] := by
  unfold depStep
  simp only [h, if_false]
  refine ⟨trivial, ?_, ?_⟩
  · simp [resolvedLink]
  · cases hlook : allNodes.lookup (resolveImportPath req.FilePath imp.TargetPath req.RepoFiles) with
    | none => simp
    | some node => simp [hl _ _ hlook]

theorem depStep_foldl (req : BridgeRequest) (language : Str)
    (allNodes : List (Str × DependencyNode))
    (hl : ∀ p node, allNodes.lookup p = some node → node.Path = p)
    (l : List DependencyLink) (st : DepState)
    (h1 : st.links.map (fun k => k.TargetPath) = st.seenDeps.reverse)
    (h2 : st.dependencies.map (fun n => n.Path) = st.seenDeps.reverse)
    (h3 : st.seenDeps.Nodup) :
    (l.foldl (depStep req language allNodes) st).links.map (fun k => k.TargetPath) =
        (l.foldl (depStep req language allNodes) st).seenDeps.reverse ∧
    (l.foldl (depStep req language allNodes) st).dependencies.map (fun n => n.Path) =
        (l.foldl (depStep req language allNodes) st).seenDeps.reverse ∧
    (l.foldl (depStep req language allNodes) st).seenDeps.Nodup ∧
    ∀ p, p ∈ (l.foldl (depStep req language allNodes) st).seenDeps ↔
      p ∈ st.seenDeps ∨
        ∃ imp ∈ l, resolveImportPath req.FilePath imp.TargetPath req.RepoFiles = p := by
  induction l generalizing st with
  | nil => simp [h1, h2, h3]
  | cons x xs ih =>
    simp only [List.foldl_cons]
    by_cases hx : resolveImportPath req.FilePath x.TargetPath req.RepoFiles ∈ st.seenDeps
    · rw [depStep_seen req language allNodes st x hx]
      obtain ⟨r1, r2, r3, r4⟩ := ih st h1 h2 h3
      refine ⟨r1, r2, r3, ?_⟩
      intro p
      rw [r4 p]
      constructor
      · rintro (h | ⟨imp, himp, hres⟩)
        · exact Or.inl h
        · exact Or.inr ⟨imp, List.mem_cons_of_mem _ himp, hres⟩
      · rintro (h | ⟨imp, himp, hres⟩)
        · exact Or.inl h
        · rcases List.mem_cons.mp himp with rfl | hm
          · exact Or.inl (hres ▸ hx)
          · exact Or.inr ⟨imp, hm, hres⟩
    · obtain ⟨s1, s2, s3⟩ := depStep_fresh req language allNodes hl st x hx
      obtain ⟨r1, r2, r3, r4⟩ := ih (depStep req language allNodes st x)
        (by rw [s2, s1, h1]; simp) (by rw [s3, s1, h2]; simp)
        (by rw [s1]; exact List.nodup_cons.mpr ⟨hx, h3⟩)
      refine ⟨r1, r2, r3, ?_⟩
      intro p
      rw [r4 p, s1]
      constructor
      · rintro (h | ⟨imp, himp, hres⟩)
        · rcases List.mem_cons.mp h with rfl | hm
          · exact Or.inr ⟨x, List.mem_cons_self _ _, rfl⟩
          · exact Or.inl hm
        · exact Or.inr ⟨imp, List.mem_cons_of_mem _ himp, hres⟩
      · rintro (h | ⟨imp, himp, hres⟩)
        · exact Or.inl (List.mem_cons_of_mem _ h)
        · rcases List.mem_cons.mp himp with rfl | hm
          · exact Or.inl (hres ▸ List.mem_cons_self _ _)
          · exact Or.inr ⟨imp, hm, hres⟩

theorem collectDependencies_spec (req : BridgeRequest) :
    (collectDependencies req).links.map (fun k => k.TargetPath) =
        (collectDependencies req).dependencies.map (fun n => n.Path) ∧
    ((collectDependencies req).dependencies.map (fun n => n.Path)).Nodup ∧
    ∀ p, p ∈ (collectDependencies req).dependencies.map (fun n => n.Path) ↔
      ∃ imp ∈ extractImports req.FileContent (getLanguage req.FilePath),
        resolveImportPath req.FilePath imp.TargetPath req.RepoFiles = p := by
  obtain ⟨r1, r2, r3, r4⟩ := depStep_foldl req (getLanguage req.FilePath)
    (buildAllNodes req.RepoFiles) (buildAllNodes_lookup_Path req.RepoFiles)
    (extractImports req.FileContent (getLanguage req.FilePath)) {} rfl rfl List.nodup_nil
  have e : List.foldl (depStep req (getLanguage req.FilePath) (buildAllNodes req.RepoFiles)) {}
      (extractImports req.FileContent (getLanguage req.FilePath)) = collectDependencies req := rfl
  rw [e] at r1 r2 r3 r4
  refine ⟨by rw [r1, r2], ?_, ?_⟩
  · rw [r2]; exact List.nodup_reverse.mpr r3
  · intro p
    rw [r2, List.mem_reverse, r4 p]
    simp

/-- C8: no two entries of the returned dependencies have the same path, no two links of
the target node have the same target path, and the paths listed in either are exactly
the resolved paths of the imports extracted from the target file. -/
theorem analyzeBridge_dependencies_dedup (sortSlice : SortSlice)
    (hs : SortSliceSpec sortSlice) (req : BridgeRequest) :
    ((analyzeBridge sortSlice req).Dependencies.map (fun n => n.Path)).Nodup ∧
    ((analyzeBridge sortSlice req).SourceFile.Dependencies.map (fun k => k.TargetPath)).Nodup ∧
    (∀ p : Str, p ∈ (analyzeBridge sortSlice req).Dependencies.map (fun n => n.Path) ↔
      ∃ imp ∈ extractImports req.FileContent (getLanguage req.FilePath),
        resolveImportPath req.FilePath imp.TargetPath req.RepoFiles = p) ∧
    (∀ p : Str,
      p ∈ (analyzeBridge sortSlice req).SourceFile.Dependencies.map (fun k => k.TargetPath) ↔
      ∃ imp ∈ extractImports req.FileContent (getLanguage req.FilePath),
        resolveImportPath req.FilePath imp.TargetPath req.RepoFiles = p) := by
  obtain ⟨c1, c2, c3⟩ := collectDependencies_spec req
  have hd : (analyzeBridge sortSlice req).Dependencies =
      sortSlice importanceLess (collectDependencies req).dependencies := rfl
  have hl : (analyzeBridge sortSlice req).SourceFile.Dependencies =
      (collectDependencies req).links := rfl
  have hperm : ((analyzeBridge sortSlice req).Dependencies.map (fun n => n.Path)).Perm
      ((collectDependencies req).dependencies.map (fun n => n.Path)) := by
    rw [hd]; exact (sortSlice_perm sortSlice hs _).map _
  refine ⟨hperm.nodup_iff.mpr c2, ?_, ?_, ?_⟩
  · rw [hl, c1]; exact c2
  · intro p; rw [hperm.mem_iff]; exact c3 p
  · intro p; rw [hl, c1]; exact c3 p

/-- C9: the returned dependencies and dependents are each ordered by non-increasing
importance (every entry is at least as important as every later one) and each is a
rearrangement of the nodes collected before sorting. -/
theorem analyzeBridge_sorted (sortSlice : SortSlice) (hs : SortSliceSpec sortSlice)
    (req : BridgeRequest) :
    (analyzeBridge sortSlice req).Dependencies.Pairwise
      (fun x y => x.Importance ≥ y.Importance) ∧
    (analyzeBridge sortSlice req).Dependencies.Perm (collectDependencies req).dependencies ∧
    (analyzeBridge sortSlice req).Dependents.Pairwise
      (fun x y => x.Importance ≥ y.Importance) ∧
    (analyzeBridge sortSlice req).Dependents.Perm (collectDependents req) :=
  ⟨sortSlice_sorted sortSlice hs _, sortSlice_perm sortSlice hs _,
    sortSlice_sorted sortSlice hs _, sortSlice_perm sortSlice hs _⟩

/-! ## Independence of the iteration order -/

theorem hasKey_perm (rf1 rf2 : List (Str × Str)) (h : rf1.Perm rf2) (p : Str) :
    hasKey rf1 p = hasKey rf2 p := by
  rw [Bool.eq_iff_iff]
  simp only [hasKey, List.any_eq_true, decide_eq_true_eq]
  constructor
  · rintro ⟨e, he, hp⟩; exact ⟨e, h.mem_iff.mp he, hp⟩
  · rintro ⟨e, he, hp⟩; exact ⟨e, h.mem_iff.mpr he, hp⟩

theorem probe_congr (rf1 rf2 : List (Str × Str)) (h : ∀ p, hasKey rf1 p = hasKey rf2 p)
    (c : Str) (exts : List Str) : probe c rf1 exts = probe c rf2 exts := by
  induction exts with
  | nil => rfl
  | cons e es ih => simp only [probe, h, ih]

theorem resolveImportPath_perm (rf1 rf2 : List (Str × Str)) (h : rf1.Perm rf2)
    (sourcePath importPath : Str) :
    resolveImportPath sourcePath importPath rf1 = resolveImportPath sourcePath importPath rf2 := by
  unfold resolveImportPath
  simp only [probe_congr rf1 rf2 (hasKey_perm rf1 rf2 h)]

theorem fileDeps_perm (rf1 rf2 : List (Str × Str)) (h : rf1.Perm rf2) (path content : Str) :
    fileDeps rf1 path content = fileDeps rf2 path content := by
  unfold fileDeps
  simp only [resolveImportPath_perm rf1 rf2 h]

theorem fileNode_perm (rf1 rf2 : List (Str × Str)) (h : rf1.Perm rf2) (path content : Str) :
    fileNode rf1 path content = fileNode rf2 path content := by
  unfold fileNode
  simp only [resolveImportPath_perm rf1 rf2 h]

theorem buildAllDeps_perm (rf1 rf2 : List (Str × Str)) (h : rf1.Perm rf2) :
    (buildAllDeps rf1).Perm (buildAllDeps rf2) := by
  unfold buildAllDeps
  simp only [fileDeps_perm rf1 rf2 h]
  exact h.map _

theorem calculateImportance_perm (node : DependencyNode) (d1 d2 : List (Str × List Str))
    (h : d1.Perm d2) : calculateImportance node d1 = calculateImportance node d2 := by
  rw [calculateImportance_eq, calculateImportance_eq, (h.map _).sum_eq]

theorem finalNode_perm (rf1 rf2 : List (Str × Str)) (h : rf1.Perm rf2) (e : Str × Str) :
    finalNode rf1 e = finalNode rf2 e := by
  unfold finalNode
  rw [fileNode_perm rf1 rf2 h, calculateImportance_perm _ _ _ (buildAllDeps_perm rf1 rf2 h)]

theorem lookup_map_perm {β : Type} (l1 l2 : List (Str × Str)) (h : l1.Perm l2)
    (hk : (l1.map Prod.fst).Nodup) (f : Str × Str → β) (p : Str) :
    (l1.map (fun e => (e.1, f e))).lookup p = (l2.map (fun e => (e.1, f e))).lookup p := by
  have hk2 : (l2.map Prod.fst).Nodup := (h.map _).nodup_iff.mp hk
  apply Option.ext
  intro b
  simp only [Option.mem_def]
  constructor
  · intro hb
    obtain ⟨e, he, h1, h2⟩ := lookup_map_Path l1 f p b hb
    rw [← h1, ← h2]
    exact lookup_map_of_mem l2 f hk2 e (h.mem_iff.mp he)
  · intro hb
    obtain ⟨e, he, h1, h2⟩ := lookup_map_Path l2 f p b hb
    rw [← h1, ← h2]
    exact lookup_map_of_mem l1 f hk e (h.mem_iff.mpr he)

theorem buildAllNodes_lookup_perm (rf1 rf2 : List (Str × Str)) (h : rf1.Perm rf2)
    (hk : (rf1.map Prod.fst).Nodup) (p : Str) :
    (buildAllNodes rf1).lookup p = (buildAllNodes rf2).lookup p := by
  rw [buildAllNodes_eq, buildAllNodes_eq]
  have : (fun e => (e.1, finalNode rf1 e)) = (fun e : Str × Str => (e.1, finalNode rf2 e)) := by
    funext e; rw [finalNode_perm rf1 rf2 h]
  rw [this]
  exact lookup_map_perm rf1 rf2 h hk _ p

theorem collectDependencies_perm (req1 req2 : BridgeRequest)
    (hF : req1.FilePath = req2.FilePath) (hC : req1.FileContent = req2.FileContent)
    (hP : req1.RepoFiles.Perm req2.RepoFiles) (hk : (req1.RepoFiles.map Prod.fst).Nodup) :
    collectDependencies req1 = collectDependencies req2 := by
  unfold collectDependencies
  have hstep : depStep req1 (getLanguage req1.FilePath) (buildAllNodes req1.RepoFiles) =
      depStep req2 (getLanguage req2.FilePath) (buildAllNodes req2.RepoFiles) := by
    funext st imp
    unfold depStep
    simp only [hF, resolveImportPath_perm _ _ hP,
      buildAllNodes_lookup_perm _ _ hP hk]
  simp only []
  rw [hstep, hC, hF]

theorem dependentOf_perm (req1 req2 : BridgeRequest)
    (hF : req1.FilePath = req2.FilePath)
    (hP : req1.RepoFiles.Perm req2.RepoFiles) :
    dependentOf req1 = dependentOf req2 := by
  funext e
  unfold dependentOf
  simp only [hF, fileDeps_perm _ _ hP, finalNode_perm _ _ hP]

theorem collectDependents_perm (req1 req2 : BridgeRequest)
    (hF : req1.FilePath = req2.FilePath)
    (hP : req1.RepoFiles.Perm req2.RepoFiles) (hk : (req1.RepoFiles.map Prod.fst).Nodup) :
    (collectDependents req1).Perm (collectDependents req2) := by
  rw [collectDependents_eq req1 hk,
    collectDependents_eq req2 ((hP.map _).nodup_iff.mp hk), dependentOf_perm req1 req2 hF hP]
  exact hP.filterMap _

theorem importances_eq_of_perm (l1 l2 : List DependencyNode) (h : l1.Perm l2)
    (h1 : l1.Pairwise (fun x y => x.Importance ≥ y.Importance))
    (h2 : l2.Pairwise (fun x y => x.Importance ≥ y.Importance)) :
    l1.map (fun n => n.Importance) = l2.map (fun n => n.Importance) := by
  apply List.eq_of_perm_of_sorted (r := fun a b : Nat => a ≥ b) (h.map _)
  · exact List.pairwise_map.mpr h1
  · exact List.pairwise_map.mpr h2

/-- C6, as amended: for two runs on the same target file and the same snapshot (pairwise
distinct paths) in any two iteration orders and with any two sorts that keep the promise
of `sort.Slice`, the target node and the two counts are identical, and the dependencies
and the dependents are the same nodes with the same sequence of importance values; with
the same sort the dependencies list is identical.  Only the order of nodes of equal
importance may differ. -/
theorem analyzeBridge_order_independent (sort1 sort2 : SortSlice)
    (hs1 : SortSliceSpec sort1) (hs2 : SortSliceSpec sort2) (req1 req2 : BridgeRequest)
    (hF : req1.FilePath = req2.FilePath) (hC : req1.FileContent = req2.FileContent)
    (hP : req1.RepoFiles.Perm req2.RepoFiles) (hk : (req1.RepoFiles.map Prod.fst).Nodup) :
    (analyzeBridge sort1 req1).SourceFile = (analyzeBridge sort2 req2).SourceFile ∧
    (analyzeBridge sort1 req1).TotalNodes = (analyzeBridge sort2 req2).TotalNodes ∧
    (analyzeBridge sort1 req1).TotalEdges = (analyzeBridge sort2 req2).TotalEdges ∧
    (analyzeBridge sort1 req1).Dependencies.Perm (analyzeBridge sort2 req2).Dependencies ∧
    (analyzeBridge sort1 req1).Dependencies.map (fun n => n.Importance) =
      (analyzeBridge sort2 req2).Dependencies.map (fun n => n.Importance) ∧
    (analyzeBridge sort1 req1).Dependents.Perm (analyzeBridge sort2 req2).Dependents ∧
    (analyzeBridge sort1 req1).Dependents.map (fun n => n.Importance) =
      (analyzeBridge sort2 req2).Dependents.map (fun n => n.Importance) ∧
    (sort1 = sort2 →
      (analyzeBridge sort1 req1).Dependencies = (analyzeBridge sort2 req2).Dependencies) := by
  have hcd := collectDependencies_perm req1 req2 hF hC hP hk
  have hct := collectDependents_perm req1 req2 hF hP hk
  have hd1 : (analyzeBridge sort1 req1).Dependencies =
      sort1 importanceLess (collectDependencies req1).dependencies := rfl
  have hd2 : (analyzeBridge sort2 req2).Dependencies =
      sort2 importanceLess (collectDependencies req2).dependencies := rfl
  have ht1 : (analyzeBridge sort1 req1).Dependents =
      sort1 importanceLess (collectDependents req1) := rfl
  have ht2 : (analyzeBridge sort2 req2).Dependents =
      sort2 importanceLess (collectDependents req2) := rfl
  have pd : (analyzeBridge sort1 req1).Dependencies.Perm
      (analyzeBridge sort2 req2).Dependencies := by
    rw [hd1, hd2, hcd]
    exact (sortSlice_perm sort1 hs1 _).trans (sortSlice_perm sort2 hs2 _).symm
  have pt : (analyzeBridge sort1 req1).Dependents.Perm
      (analyzeBridge sort2 req2).Dependents := by
    rw [ht1, ht2]
    exact ((sortSlice_perm sort1 hs1 _).trans hct).trans (sortSlice_perm sort2 hs2 _).symm
  have hsrc : (analyzeBridge sort1 req1).SourceFile = (analyzeBridge sort2 req2).SourceFile := by
    simp only [analyzeBridge, hcd, hF, hC]
    rw [calculateImportance_perm _ _ _ (buildAllDeps_perm _ _ hP)]
  have hn : (analyzeBridge sort1 req1).TotalNodes = (analyzeBridge sort2 req2).TotalNodes := by
    show (analyzeBridge sort1 req1).Dependencies.length +
        (analyzeBridge sort1 req1).Dependents.length + 1 =
      (analyzeBridge sort2 req2).Dependencies.length +
        (analyzeBridge sort2 req2).Dependents.length + 1
    rw [pd.length_eq, pt.length_eq]
  have he : (analyzeBridge sort1 req1).TotalEdges = (analyzeBridge sort2 req2).TotalEdges := by
    show (analyzeBridge sort1 req1).Dependencies.length +
        (analyzeBridge sort1 req1).Dependents.length =
      (analyzeBridge sort2 req2).Dependencies.length +
        (analyzeBridge sort2 req2).Dependents.length
    rw [pd.length_eq, pt.length_eq]
  refine ⟨hsrc, hn, he, pd, ?_, pt, ?_, ?_⟩
  · exact importances_eq_of_perm _ _ pd (sortSlice_sorted sort1 hs1 _)
      (sortSlice_sorted sort2 hs2 _)
  · exact importances_eq_of_perm _ _ pt (sortSlice_sorted sort1 hs1 _)
      (sortSlice_sorted sort2 hs2 _)
  · intro heq
    rw [hd1, hd2, hcd, heq]

/-- The amended C6 on the snapshot `snapshotAC` and its reverse. -/
theorem analyzeBridge_order_independent_witness :
    SortSliceSpec insertionSortSlice ∧
    (requestB snapshotAC).RepoFiles.Perm (requestB snapshotAC.reverse).RepoFiles ∧
    ((requestB snapshotAC).RepoFiles.map Prod.fst).Nodup ∧
    (analyzeBridge insertionSortSlice (requestB snapshotAC)).SourceFile =
      (analyzeBridge insertionSortSlice (requestB snapshotAC.reverse)).SourceFile ∧
    (analyzeBridge insertionSortSlice (requestB snapshotAC)).Dependents.Perm
      (analyzeBridge insertionSortSlice (requestB snapshotAC.reverse)).Dependents :=
  have h := analyzeBridge_order_independent insertionSortSlice insertionSortSlice
    insertionSortSlice_spec insertionSortSlice_spec (requestB snapshotAC)
    (requestB snapshotAC.reverse) rfl rfl (List.reverse_perm _).symm (by decide)
  ⟨insertionSortSlice_spec, (List.reverse_perm _).symm, by decide, h.1, h.2.2.2.2.2.1⟩

set_option maxRecDepth 1000000 in
/-- C6 fails as stated: with the snapshot iterated in the order a, b, c the dependents of
`src/b.ts` come out as a, c, and in the order c, b, a as c, a (both have importance 0),
so the two responses to the same request differ. -/
theorem analyzeBridge_depends_on_iteration_order :
    SortSliceSpec insertionSortSlice ∧
    snapshotAC.Perm snapshotAC.reverse ∧
    (snapshotAC.map Prod.fst).Nodup ∧
    (analyzeBridge insertionSortSlice (requestB snapshotAC)).Dependents.map (fun n => n.Path) =
      ["src/a.ts".toList, "src/c.ts".toList] ∧
    (analyzeBridge insertionSortSlice (requestB snapshotAC.reverse)).Dependents.map
      (fun n => n.Path) = ["src/c.ts".toList, "src/a.ts".toList] ∧
    analyzeBridge insertionSortSlice (requestB snapshotAC) ≠
      analyzeBridge insertionSortSlice (requestB snapshotAC.reverse) :=
  ⟨insertionSortSlice_spec, (List.reverse_perm _).symm, by decide, by decide, by decide,
    by decide⟩

set_option maxRecDepth 1000000 in
/-- C7 on the snapshot `snapshotAC`: analysing `src/b.ts` lists `src/a.ts` and `src/c.ts`,
each once, and not `src/b.ts` itself. -/
theorem analyzeBridge_dependents_correct_witness :
    SortSliceSpec insertionSortSlice ∧
    ((requestB snapshotAC).RepoFiles.map Prod.fst).Nodup ∧
    "src/a.ts".toList ∈
      (analyzeBridge insertionSortSlice (requestB snapshotAC)).Dependents.map (fun n => n.Path) ∧
    "src/c.ts".toList ∈
      (analyzeBridge insertionSortSlice (requestB snapshotAC)).Dependents.map (fun n => n.Path) ∧
    ((analyzeBridge insertionSortSlice (requestB snapshotAC)).Dependents.map
      (fun n => n.Path)).Nodup ∧
    "src/b.ts".toList ∉
      (analyzeBridge insertionSortSlice (requestB snapshotAC)).Dependents.map (fun n => n.Path) :=
  have h := analyzeBridge_dependents_correct insertionSortSlice insertionSortSlice_spec
    (requestB snapshotAC) (by decide)
  ⟨insertionSortSlice_spec, by decide,
    (h.1 _).mpr ⟨by decide, "import './b'".toList, by decide, by decide⟩,
    (h.1 _).mpr ⟨by decide, "import './b'\nimport \x7b b \x7d from './b'".toList,
      by decide, by decide⟩,
    h.2.1, h.2.2⟩

set_option maxRecDepth 1000000 in
/-- C8 on `requestC`, whose two import statements both resolve to `src/b.ts`. -/
theorem analyzeBridge_dependencies_dedup_witness :
    SortSliceSpec insertionSortSlice ∧
    (extractImports requestC.FileContent (getLanguage requestC.FilePath)).map
      (fun k => resolveImportPath requestC.FilePath k.TargetPath requestC.RepoFiles) =
      ["src/b.ts".toList, "src/b.ts".toList] ∧
    ((analyzeBridge insertionSortSlice requestC).Dependencies.map (fun n => n.Path)).Nodup ∧
    ((analyzeBridge insertionSortSlice requestC).SourceFile.Dependencies.map
      (fun k => k.TargetPath)).Nodup ∧
    "src/b.ts".toList ∈
      (analyzeBridge insertionSortSlice requestC).Dependencies.map (fun n => n.Path) :=
  have h := analyzeBridge_dependencies_dedup insertionSortSlice insertionSortSlice_spec requestC
  ⟨insertionSortSlice_spec, by decide, h.1, h.2.1, (h.2.2.1 _).mpr (by decide)⟩

/-- C9 on the snapshot `snapshotAC`. -/
theorem analyzeBridge_sorted_witness :
    SortSliceSpec insertionSortSlice ∧
    (analyzeBridge insertionSortSlice (requestB snapshotAC)).Dependencies.Pairwise
      (fun x y => x.Importance ≥ y.Importance) ∧
    (analyzeBridge insertionSortSlice (requestB snapshotAC)).Dependencies.Perm
      (collectDependencies (requestB snapshotAC)).dependencies ∧
    (analyzeBridge insertionSortSlice (requestB snapshotAC)).Dependents.Pairwise
      (fun x y => x.Importance ≥ y.Importance) ∧
    (analyzeBridge insertionSortSlice (requestB snapshotAC)).Dependents.Perm
      (collectDependents (requestB snapshotAC)) :=
  ⟨insertionSortSlice_spec,
    analyzeBridge_sorted insertionSortSlice insertionSortSlice_spec (requestB snapshotAC)⟩

/-! ## Go import blocks -/

set_option maxRecDepth 1000000 in
/-- C10: the patterns are matched against one line at a time, so a grouped import block
written with one entry per line yields no link at all, where the claim requires one link
with target `net/http`; a block on a single line yields one link whose target is the text
between the first and the last quote, not the last entry. -/
theorem extractImports_go_block_per_line :
    extractImports "import (\n\"fmt\"\n\"net/http\"\n)".toList "go".toList = [] ∧
    extractImports "import (\n\t\"fmt\"\n\t\"net/http\"\n)\n".toList "go".toList = [] ∧
    (extractImports "import ( \"fmt\" \"net/http\" )".toList "go".toList).map
      (fun k => k.TargetPath) = ["fmt\" \"net/http".toList] ∧
    extractImports "import ( \"fmt\" )".toList "go".toList =
      [{ TargetPath := "fmt".toList, ImportType := "default".toList, LineNumber := 1,
         IsExternal := false }] := by
  decide

/-! ## Externality and import forms -/

theorem parseDependencyMatch_IsExternal (m : List Str) (language : Str) (lineNum : Nat) :
    (parseDependencyMatch m language lineNum).IsExternal =
      isExternalDependency (parseDependencyMatch m language lineNum).TargetPath language := by
  unfold parseDependencyMatch
  rfl

/-- C12: the externality table.  For typescript and javascript a target is external iff
it starts with none of `.`, `@/`, `~/`; for python iff it does not start with `.`; for go
iff it contains `/`; for rust iff it starts with none of `crate::`, `self::`, `super::`;
for every other language tag always.  Every link returned by `parseDependencyMatch` has
`IsExternal` equal to `isExternalDependency` of its own target path and the language. -/
theorem isExternalDependency_table (t : Str) :
    (isExternalDependency t "typescript".toList =
      (!strings.HasPrefix t ".".toList && !strings.HasPrefix t "@/".toList &&
        !strings.HasPrefix t "~/".toList)) ∧
    (isExternalDependency t "javascript".toList =
      (!strings.HasPrefix t ".".toList && !strings.HasPrefix t "@/".toList &&
        !strings.HasPrefix t "~/".toList)) ∧
    (isExternalDependency t "python".toList = !strings.HasPrefix t ".".toList) ∧
    (isExternalDependency t "go".toList = strings.Contains t "/".toList) ∧
    (isExternalDependency t "rust".toList =
      (!strings.HasPrefix t "crate::".toList && !strings.HasPrefix t "self::".toList &&
        !strings.HasPrefix t "super::".toList)) ∧
    (∀ language : Str, language ∉ catalogLanguages → isExternalDependency t language = true) ∧
    (∀ (m : List Str) (language : Str) (lineNum : Nat),
      (parseDependencyMatch m language lineNum).IsExternal =
        isExternalDependency (parseDependencyMatch m language lineNum).TargetPath language) := by
  refine ⟨?_, ?_, ?_, ?_, ?_, ?_, parseDependencyMatch_IsExternal⟩
  · simp [isExternalDependency]
  · simp [isExternalDependency]
  · simp [isExternalDependency]
  · simp [isExternalDependency]
  · simp [isExternalDependency]
  · intro language h
    simp only [catalogLanguages, List.mem_cons, List.mem_singleton, not_or, List.not_mem_nil,
      or_false] at h
    obtain ⟨h1, h2, h3, h4, h5⟩ := h
    unfold isExternalDependency
    rw [if_neg (by rintro (h | h) <;> contradiction), if_neg h3, if_neg h4, if_neg h5]

/-- C18: a Python match with two capture groups (module path `x`, name list `l`) yields
target `x`, kind `named`, the comma-split, trimmed, blank-dropped pieces of `l` as names,
and `IsExternal` true iff `x` does not start with `.`; a match with a single capture
group yields target `x`, kind `default` and an empty name list. -/
theorem parseDependencyMatch_python (whole x l : Str) (lineNum : Nat) :
    parseDependencyMatch [whole, x, l] "python".toList lineNum =
      { TargetPath := x
        ImportType := "named".toList
        ImportNames := splitNames l
        LineNumber := lineNum
        IsExternal := !strings.HasPrefix x ".".toList } ∧
    parseDependencyMatch [whole, x] "python".toList lineNum =
      { TargetPath := x
        ImportType := "default".toList
        ImportNames := []
        LineNumber := lineNum
        IsExternal := !strings.HasPrefix x ".".toList } := by
  constructor <;>
    simp [parseDependencyMatch, isExternalDependency, appendTrimmed_eq, splitNames]

set_option maxRecDepth 1000000 in
/-- C18 at the line `from .models import User, Post`. -/
theorem parseDependencyMatch_python_witness :
    extractImports "from .models import User, Post".toList "python".toList =
      [{ TargetPath := ".models".toList
         ImportType := "named".toList
         ImportNames := ["User".toList, "Post".toList]
         LineNumber := 1
         IsExternal := false }] ∧
    parseDependencyMatch ["from .models import User, Post".toList, ".models".toList,
        "User, Post".toList] "python".toList 1 =
      { TargetPath := ".models".toList
        ImportType := "named".toList
        ImportNames := splitNames "User, Post".toList
        LineNumber := 1
        IsExternal := !strings.HasPrefix ".models".toList ".".toList } :=
  ⟨by decide, (parseDependencyMatch_python _ _ _ 1).1⟩

/-- C19 fails as stated: the path `src/components/lib/a.ts` has the role `component`, for
which the claim gives a bonus of 3, yet `calculateImportance` tests `/lib/` before
`/components/` and adds 5. -/
theorem roleBonus_not_by_role :
    getFileType "src/components/lib/a.ts".toList = "component".toList ∧
    calculateImportance { Path := "src/components/lib/a.ts".toList } [] = 5 ∧
    roleBonusOfType (getFileType "src/components/lib/a.ts".toList) = 3 := by
  decide

set_option maxRecDepth 1000000 in
/-- C20: the line `import from './x'` matches the combined form with both binding
groups empty, and the link it yields has an empty `ImportType`, which is none of the
four enumerated kinds. -/
theorem extractImports_empty_kind :
    extractImports "import from './x'".toList "typescript".toList =
      [{ TargetPath := "./x".toList, ImportType := [], ImportNames := [], LineNumber := 1,
         IsExternal := false }] ∧
    ([] : Str) ∉ importKinds ∧
    (parseDependencyMatch ["import from './x'".toList, [], [], "./x".toList]
      "javascript".toList 1).ImportType = [] := by
  decide

/-! ## Classifiers -/

theorem ite_or_chain {α : Type} (a b : Prop) [Decidable a] [Decidable b] (x y : α) :
    (if a ∨ b then x else y) = if a then x else (if b then x else y) := by
  by_cases ha : a <;> by_cases hb : b <;> simp [ha, hb]

theorem getLanguage_eq_firstTag (p : Str) :
    getLanguage p = firstTag languageTable (strings.ToLower p) := by
  unfold getLanguage languageTable
  simp only [firstTag, ite_or_chain]

theorem suffix_compatible (ext a b : Str) (ha : strings.HasSuffix ext a = true)
    (hb : strings.HasSuffix ext b = true) :
    (strings.HasSuffix a b || strings.HasSuffix b a) = true := by
  simp only [strings.HasSuffix, List.isSuffixOf_iff_suffix, Bool.or_eq_true] at *
  rcases le_total a.length b.length with h | h
  · exact Or.inr (List.suffix_of_suffix_length_le ha hb h)
  · exact Or.inl (List.suffix_of_suffix_length_le hb ha h)

theorem languageTable_consistent :
    ∀ e ∈ languageTable, ∀ e' ∈ languageTable,
      (strings.HasSuffix e.1 e'.1 || strings.HasSuffix e'.1 e.1) = true → e.2 = e'.2 := by
  decide

theorem firstTag_none (tbl : List (Str × Str)) (ext : Str)
    (h : ∀ e ∈ tbl, strings.HasSuffix ext e.1 = false) : firstTag tbl ext = "unknown".toList := by
  induction tbl with
  | nil => rfl
  | cons e es ih =>
    simp only [firstTag, h e (List.mem_cons_self _ _), Bool.false_eq_true, if_false]
    exact ih (fun x hx => h x (List.mem_cons_of_mem _ hx))

theorem firstTag_some (tbl : List (Str × Str)) (ext : Str) (e : Str × Str) (he : e ∈ tbl)
    (h : strings.HasSuffix ext e.1 = true) :
    ∃ e' ∈ tbl, strings.HasSuffix ext e'.1 = true ∧ firstTag tbl ext = e'.2 := by
  induction tbl with
  | nil => simp at he
  | cons x xs ih =>
    by_cases hx : strings.HasSuffix ext x.1 = true
    · exact ⟨x, List.mem_cons_self _ _, hx, by simp only [firstTag, hx, if_true]⟩
    · rcases List.mem_cons.mp he with rfl | hm
      · exact absurd h hx
      · obtain ⟨e', he', h1, h2⟩ := ih hm
        exact ⟨e', List.mem_cons_of_mem _ he', h1, by rw [firstTag, if_neg hx, h2]⟩

theorem firstTag_mem (tbl : List (Str × Str)) (ext : Str) :
    firstTag tbl ext = "unknown".toList ∨ ∃ e ∈ tbl, firstTag tbl ext = e.2 := by
  induction tbl with
  | nil => exact Or.inl rfl
  | cons x xs ih =>
    by_cases hx : strings.HasSuffix ext x.1 = true
    · exact Or.inr ⟨x, List.mem_cons_self _ _, by simp only [firstTag, hx, if_true]⟩
    · rcases ih with h | ⟨e, he, h⟩
      · exact Or.inl (by rw [firstTag, if_neg hx, h])
      · exact Or.inr ⟨e, List.mem_cons_of_mem _ he, by rw [firstTag, if_neg hx, h]⟩

theorem toLower_char_idem (c : Char) :
    (fun c : Char => if 65 ≤ c.toNat ∧ c.toNat ≤ 90 then Char.ofNat (c.toNat + 32) else c)
      (if 65 ≤ c.toNat ∧ c.toNat ≤ 90 then Char.ofNat (c.toNat + 32) else c) =
    (if 65 ≤ c.toNat ∧ c.toNat ≤ 90 then Char.ofNat (c.toNat + 32) else c) := by
  by_cases h : 65 ≤ c.toNat ∧ c.toNat ≤ 90
  · simp only [h, and_self, if_true]
    have hc : c = Char.ofNat c.toNat := (Char.ofNat_toNat c).symm
    obtain ⟨h1, h2⟩ := h
    generalize c.toNat = n at *
    interval_cases n <;> decide
  · simp only [h, if_false]

theorem ToLower_idem (s : Str) : strings.ToLower (strings.ToLower s) = strings.ToLower s := by
  unfold strings.ToLower
  rw [List.map_map]
  apply List.map_congr_left
  intro c _
  exact toLower_char_idem c

/-- C13: `getLanguage` depends only on the lowercased path; it returns the tag of every
row of the suffix table whose suffix ends the lowercased path, `unknown` when no suffix
of the table does, and always one of the eight tags. -/
theorem getLanguage_table (p : Str) :
    getLanguage p = getLanguage (strings.ToLower p) ∧
    (∀ e ∈ languageTable, strings.HasSuffix (strings.ToLower p) e.1 = true →
      getLanguage p = e.2) ∧
    ((∀ e ∈ languageTable, strings.HasSuffix (strings.ToLower p) e.1 = false) →
      getLanguage p = "unknown".toList) ∧
    getLanguage p ∈ languageTags := by
  refine ⟨?_, ?_, ?_, ?_⟩
  · rw [getLanguage_eq_firstTag, getLanguage_eq_firstTag, ToLower_idem]
  · intro e he h
    obtain ⟨e', he', h1, h2⟩ := firstTag_some languageTable _ e he h
    rw [getLanguage_eq_firstTag, h2]
    exact languageTable_consistent e' he' e he (suffix_compatible _ _ _ h1 h)
  · intro h
    rw [getLanguage_eq_firstTag]
    exact firstTag_none _ _ h
  · rw [getLanguage_eq_firstTag]
    rcases firstTag_mem languageTable (strings.ToLower p) with h | ⟨e, he, h⟩
    · rw [h]; decide
    · rw [h]
      have : ∀ e ∈ languageTable, e.2 ∈ languageTags := by decide
      exact this e he

theorem LastIndex_none_iff (s : Str) (c : Char) : strings.LastIndex s c = none ↔ c ∉ s := by
  induction s with
  | nil => simp [strings.LastIndex]
  | cons x t ih =>
    unfold strings.LastIndex
    cases h : strings.LastIndex t c with
    | some i =>
      have : c ∈ t := by
        by_contra hc
        rw [ih.mpr hc] at h
        exact absurd h (by simp)
      simp [this]
    | none =>
      have hc := ih.mp h
      by_cases hx : x = c
      · simp [hx]
      · have hne : ¬ c = x := fun h => hx h.symm
        simp [hx, hc, hne]

theorem fileNameOf_cons_of_mem (x : Char) (t : Str) (h : '/' ∈ t) :
    fileNameOf (x :: t) = fileNameOf t := by
  unfold fileNameOf
  rw [List.reverse_cons, List.takeWhile_append]
  have hlen : (List.takeWhile (fun c => decide (c ≠ '/')) t.reverse).length ≠ t.reverse.length := by
    intro hl
    have hall := List.takeWhile_eq_self_iff.mp
      ((List.takeWhile_sublist _).eq_of_length hl)
    have := hall '/' (List.mem_reverse.mpr h)
    simp at this
  rw [if_neg hlen]

theorem fileNameOf_cons_of_not_mem (x : Char) (t : Str) (h : '/' ∉ t) :
    fileNameOf (x :: t) = if x = '/' then t else x :: t := by
  unfold fileNameOf
  have hall : ∀ a ∈ t.reverse, (fun c => decide (c ≠ '/')) a = true := by
    intro a ha
    have : a ≠ '/' := fun h0 => h (h0 ▸ List.mem_reverse.mp ha)
    simpa using this
  rw [List.reverse_cons, List.takeWhile_append_of_pos hall]
  by_cases hx : x = '/'
  · simp [hx]
  · simp [hx]

/-- The function `getFileName` returns the characters after the last `/`. -/
theorem getFileName_eq_fileNameOf (path : Str) : getFileName path = fileNameOf path := by
  induction path with
  | nil => rfl
  | cons x t ih =>
    unfold getFileName at ih ⊢
    unfold strings.LastIndex
    cases h : strings.LastIndex t '/' with
    | some i =>
      have hm : '/' ∈ t := by
        by_contra hc
        rw [(LastIndex_none_iff t '/').mpr hc] at h
        exact absurd h (by simp)
      rw [h] at ih
      simp only [List.drop_succ_cons]
      rw [fileNameOf_cons_of_mem x t hm]
      exact ih
    | none =>
      have hm := (LastIndex_none_iff t '/').mp h
      rw [fileNameOf_cons_of_not_mem x t hm]
      by_cases hx : x = '/'
      · simp [hx]
      · simp [hx]

theorem getFileType_eq_firstRole (path : Str) :
    getFileType path = firstRole roleRules path := by
  unfold getFileType roleRules
  simp only [firstRole, Bool.or_eq_true, Bool.and_eq_true, or_assoc,
    getFileName_eq_fileNameOf]

theorem firstRole_mem (rules : List ((Str → Bool) × Str)) (path : Str) :
    firstRole rules path = "file".toList ∨ ∃ r ∈ rules, firstRole rules path = r.2 := by
  induction rules with
  | nil => exact Or.inl rfl
  | cons x xs ih =>
    by_cases hx : x.1 path = true
    · exact Or.inr ⟨x, List.mem_cons_self _ _, by simp only [firstRole, hx, if_true]⟩
    · rcases ih with h | ⟨e, he, h⟩
      · exact Or.inl (by rw [firstRole, if_neg hx, h])
      · exact Or.inr ⟨e, List.mem_cons_of_mem _ he, by rw [firstRole, if_neg hx, h]⟩

theorem firstRole_first (pre post : List ((Str → Bool) × Str)) (r : (Str → Bool) × Str)
    (path : Str) (hr : r.1 path = true) (hpre : ∀ q ∈ pre, q.1 path = false) :
    firstRole (pre ++ r :: post) path = r.2 := by
  induction pre with
  | nil => simp only [List.nil_append, firstRole, hr, if_true]
  | cons x xs ih =>
    simp only [List.cons_append, firstRole, hpre x (List.mem_cons_self _ _),
      Bool.false_eq_true, if_false]
    exact ih (fun q hq => hpre q (List.mem_cons_of_mem _ hq))

theorem firstRole_none (rules : List ((Str → Bool) × Str)) (path : Str)
    (h : ∀ q ∈ rules, q.1 path = false) : firstRole rules path = "file".toList := by
  induction rules with
  | nil => rfl
  | cons x xs ih =>
    simp only [firstRole, h x (List.mem_cons_self _ _), Bool.false_eq_true, if_false]
    exact ih (fun q hq => h q (List.mem_cons_of_mem _ hq))

/-- C14: `getFileType` returns the role of the first rule of `roleRules` that matches,
`file` when none matches; in particular a path that contains `/components/` is a
component whatever else it contains, and the result is always one of the eight roles. -/
theorem getFileType_priority (path : Str) :
    (∀ (pre post : List ((Str → Bool) × Str)) (r : (Str → Bool) × Str),
      roleRules = pre ++ r :: post → r.1 path = true → (∀ q ∈ pre, q.1 path = false) →
      getFileType path = r.2) ∧
    ((∀ q ∈ roleRules, q.1 path = false) → getFileType path = "file".toList) ∧
    (strings.Contains path "/components/".toList = true →
      getFileType path = "component".toList) ∧
    getFileType path ∈ fileRoles := by
  refine ⟨?_, ?_, ?_, ?_⟩
  · intro pre post r hrules hr hpre
    rw [getFileType_eq_firstRole, hrules]
    exact firstRole_first pre post r path hr hpre
  · intro h
    rw [getFileType_eq_firstRole]
    exact firstRole_none _ _ h
  · intro h
    unfold getFileType
    simp only [h, if_true]
  · rw [getFileType_eq_firstRole]
    rcases firstRole_mem roleRules path with h | ⟨r, hr, h⟩
    · rw [h]; decide
    · rw [h]
      simp only [roleRules, List.mem_cons, List.mem_singleton, List.not_mem_nil, or_false] at hr
      rcases hr with rfl | rfl | rfl | rfl | rfl | rfl | rfl <;> decide

/-! ## Unsupported languages and witnesses of the classifiers -/

theorem sortSlice_nil (sortSlice : SortSlice) (hs : SortSliceSpec sortSlice) :
    sortSlice importanceLess [] = [] :=
  List.perm_nil.mp (hs importanceLess []).1

theorem extractImports_none (content language : Str) (h : languagePatterns language = none) :
    extractImports content language = [] := by
  unfold extractImports
  rw [h]

theorem extractExports_none (content language : Str) (h : languagePatterns language = none) :
    extractExports content language = [] := by
  unfold extractExports
  rw [h]

theorem languagePatterns_none (language : Str) (h : language ∉ catalogLanguages) :
    languagePatterns language = none := by
  simp only [catalogLanguages, List.mem_cons, List.mem_singleton, not_or, List.not_mem_nil,
    or_false] at h
  obtain ⟨h1, h2, h3, h4, h5⟩ := h
  unfold languagePatterns
  rw [if_neg h1, if_neg h2, if_neg h3, if_neg h4, if_neg h5]

/-- C17: for a language tag that has no entry in the pattern catalog, `extractImports`
and `extractExports` both return the empty list, and `analyzeBridge` on a target whose
language has no entry returns a target node with no dependency links and no exports
and an empty dependencies list. -/
theorem unsupported_language_empty (sortSlice : SortSlice) (hs : SortSliceSpec sortSlice)
    (content language : Str) (req : BridgeRequest) :
    (language ∉ catalogLanguages →
      extractImports content language = [] ∧ extractExports content language = []) ∧
    (getLanguage req.FilePath ∉ catalogLanguages →
      (analyzeBridge sortSlice req).SourceFile.Dependencies = [] ∧
      (analyzeBridge sortSlice req).SourceFile.Exports = [] ∧
      (analyzeBridge sortSlice req).Dependencies = []) := by
  constructor
  · intro h
    have hn := languagePatterns_none language h
    exact ⟨extractImports_none content language hn, extractExports_none content language hn⟩
  · intro h
    have hn := languagePatterns_none _ h
    have hc : collectDependencies req = {} := by
      unfold collectDependencies
      simp only [extractImports_none req.FileContent _ hn, List.foldl_nil]
    have hd : (analyzeBridge sortSlice req).Dependencies =
        sortSlice importanceLess (collectDependencies req).dependencies := rfl
    have hl : (analyzeBridge sortSlice req).SourceFile.Dependencies =
        (collectDependencies req).links := rfl
    have he : (analyzeBridge sortSlice req).SourceFile.Exports =
        extractExports req.FileContent (getLanguage req.FilePath) := rfl
    rw [hd, hl, he, hc, extractExports_none req.FileContent _ hn]
    exact ⟨rfl, rfl, sortSlice_nil sortSlice hs⟩

/-- C17 on the style sheet `src/app.css`; `css`, `json` and `unknown` have no entry. -/
theorem unsupported_language_empty_witness :
    SortSliceSpec insertionSortSlice ∧
    "css".toList ∉ catalogLanguages ∧ "json".toList ∉ catalogLanguages ∧
    "unknown".toList ∉ catalogLanguages ∧
    getLanguage "src/app.css".toList = "css".toList ∧
    extractImports "@import './b.css';".toList "css".toList = [] ∧
    extractExports "@import './b.css';".toList "css".toList = [] ∧
    (analyzeBridge insertionSortSlice
      { FilePath := "src/app.css".toList, FileContent := "@import './b.css';".toList,
        RepoFiles := snapshotAC }).Dependencies = [] :=
  have h := unsupported_language_empty insertionSortSlice insertionSortSlice_spec
    "@import './b.css';".toList "css".toList
    { FilePath := "src/app.css".toList, FileContent := "@import './b.css';".toList,
      RepoFiles := snapshotAC }
  ⟨insertionSortSlice_spec, by decide, by decide, by decide, by decide,
    (h.1 (by decide)).1, (h.1 (by decide)).2, (h.2 (by decide)).2.2⟩

/-- C12 at the targets `./x` and `net/http`. -/
theorem isExternalDependency_table_witness :
    "css".toList ∉ catalogLanguages ∧
    isExternalDependency "./x".toList "css".toList = true ∧
    isExternalDependency "./x".toList "typescript".toList = false ∧
    isExternalDependency "net/http".toList "go".toList = true :=
  have h := isExternalDependency_table "./x".toList
  have g := isExternalDependency_table "net/http".toList
  ⟨by decide, h.2.2.2.2.2.1 _ (by decide), by rw [h.1]; decide, by rw [g.2.2.2.1]; decide⟩

/-- C13 at the paths `src/App.TSX` and `Makefile`. -/
theorem getLanguage_table_witness :
    (".tsx".toList, "typescript".toList) ∈ languageTable ∧
    strings.HasSuffix (strings.ToLower "src/App.TSX".toList) ".tsx".toList = true ∧
    getLanguage "src/App.TSX".toList = "typescript".toList ∧
    getLanguage "Makefile".toList = "unknown".toList :=
  ⟨by decide, by decide,
    (getLanguage_table "src/App.TSX".toList).2.1 (".tsx".toList, "typescript".toList)
      (by decide) (by decide),
    (getLanguage_table "Makefile".toList).2.2.1 (by decide)⟩

/-- C14 at one path for each kind of rule: a path that contains both `/components/` and
`/lib/`, a page under `/app/`, a configuration file, a style sheet, and a path that no rule
matches; the file name of `src/app/dashboard/page.tsx` is `page.tsx`. -/
theorem getFileType_priority_witness :
    strings.Contains "src/components/lib/a.ts".toList "/components/".toList = true ∧
    strings.Contains "src/components/lib/a.ts".toList "/lib/".toList = true ∧
    getFileType "src/components/lib/a.ts".toList = "component".toList ∧
    getFileType "README.md".toList = "file".toList ∧
    fileNameOf "src/app/dashboard/page.tsx".toList = "page.tsx".toList ∧
    getFileType "src/app/dashboard/page.tsx".toList = "page".toList ∧
    getFileType "pages/app/index.tsx".toList = "file".toList ∧
    getFileType "package.json".toList = "config".toList ∧
    getFileType "web/next.config.js".toList = "config".toList ∧
    getFileType "json/readme".toList = "file".toList ∧
    getFileType "src/styles/main.scss".toList = "style".toList := by
  have hpage := (getFileType_priority "src/app/dashboard/page.tsx".toList).1
    (roleRules.take 4) (roleRules.drop 5) (roleRules.getD 4 (fun _ => false, [])) rfl
    (by decide) (by decide)
  have hjson := (getFileType_priority "package.json".toList).1
    (roleRules.take 5) (roleRules.drop 6) (roleRules.getD 5 (fun _ => false, [])) rfl
    (by decide) (by decide)
  have hconf := (getFileType_priority "web/next.config.js".toList).1
    (roleRules.take 5) (roleRules.drop 6) (roleRules.getD 5 (fun _ => false, [])) rfl
    (by decide) (by decide)
  have hstyle := (getFileType_priority "src/styles/main.scss".toList).1
    (roleRules.take 6) (roleRules.drop 7) (roleRules.getD 6 (fun _ => false, [])) rfl
    (by decide) (by decide)
  refine ⟨by decide, by decide,
    (getFileType_priority "src/components/lib/a.ts".toList).2.2.1 (by decide),
    (getFileType_priority "README.md".toList).2.1 (by decide), by decide, ?_,
    (getFileType_priority "pages/app/index.tsx".toList).2.1 (by decide), ?_, ?_,
    (getFileType_priority "json/readme".toList).2.1 (by decide), ?_⟩
  · rw [hpage]; decide
  · rw [hjson]; decide
  · rw [hconf]; decide
  · rw [hstyle]; decide

/-- The bonus follows the role except on a path that contains `/components/` together
with `/lib/` or `/utils/`. -/
theorem roleBonus_eq_of_role (path : Str)
    (h : ¬ (strings.Contains path "/components/".toList = true ∧
      (strings.Contains path "/lib/".toList = true ∨
        strings.Contains path "/utils/".toList = true))) :
    roleBonus path = roleBonusOfType (getFileType path) := by
  unfold roleBonus getFileType
  by_cases hc : strings.Contains path "/components/".toList = true
  · have hl : ¬ (strings.Contains path "/lib/".toList = true ∨
        strings.Contains path "/utils/".toList = true) := fun hl => h ⟨hc, hl⟩
    rw [if_neg hl, if_pos hc, if_pos hc]
    decide
  · by_cases hl : strings.Contains path "/lib/".toList = true ∨
        strings.Contains path "/utils/".toList = true
    · rw [if_pos hl, if_neg hc, if_pos hl]
      decide
    · rw [if_neg hl, if_neg hc, if_neg hc, if_neg hl]
      by_cases ht : strings.Contains path "/types/".toList = true
      · rw [if_pos ht, if_pos ht]; decide
      · rw [if_neg ht, if_neg ht]
        split_ifs <;> decide

/-! ## Line numbers and kinds of the extracted links -/

theorem foldl_invariant {α β : Type} (P : β → Prop) (f : β → α → β) (l : List α) (init : β)
    (h0 : P init) (hstep : ∀ b a, a ∈ l → P b → P (f b a)) : P (l.foldl f init) := by
  induction l generalizing init with
  | nil => exact h0
  | cons x xs ih =>
    simp only [List.foldl_cons]
    exact ih (f init x) (hstep init x (List.mem_cons_self _ _) h0)
      (fun b a ha hb => hstep b a (List.mem_cons_of_mem _ ha) hb)

/-- Every link of `parseDependencyMatch` carries the given line number and a kind that
is one of the four enumerated kinds or empty. -/
theorem parseDependencyMatch_kind (m : List Str) (language : Str) (lineNum : Nat) :
    (parseDependencyMatch m language lineNum).LineNumber = lineNum ∧
    ((parseDependencyMatch m language lineNum).ImportType = [] ∨
      (parseDependencyMatch m language lineNum).ImportType ∈ importKinds) := by
  unfold parseDependencyMatch
  simp only
  split_ifs
  all_goals first
    | exact ⟨rfl, Or.inl rfl⟩
    | exact ⟨rfl, Or.inr (by simp [importKinds])⟩
    | exact foldl_invariant
        (fun link : DependencyLink => link.LineNumber = lineNum ∧
          (link.ImportType = [] ∨ link.ImportType ∈ importKinds)) _ _ _
        ⟨rfl, Or.inl rfl⟩
        (by
          intro b a _ hb
          try dsimp only
          split_ifs
          · exact ⟨hb.1, Or.inr (by simp [importKinds])⟩
          · exact hb)

/-- The line number of every extracted link lies between 1 and the number of lines, and
its kind is one of the four enumerated kinds or empty. -/
theorem extractImports_lines (content language : Str) :
    ∀ link ∈ extractImports content language,
      1 ≤ link.LineNumber ∧
      link.LineNumber ≤ (strings.Split content (Char.ofNat 10)).length ∧
      (link.ImportType = [] ∨ link.ImportType ∈ importKinds) := by
  unfold extractImports
  cases languagePatterns language with
  | none => simp
  | some patterns =>
    simp only
    refine foldl_invariant (fun links : List DependencyLink => ∀ link ∈ links,
      1 ≤ link.LineNumber ∧
      link.LineNumber ≤ (strings.Split content (Char.ofNat 10)).length ∧
      (link.ImportType = [] ∨ link.ImportType ∈ importKinds)) _ _ _ (by simp) ?_
    intro links e he hlinks
    have hlt := List.fst_lt_of_mem_enum he
    refine foldl_invariant (fun links : List DependencyLink => ∀ link ∈ links,
      1 ≤ link.LineNumber ∧
      link.LineNumber ≤ (strings.Split content (Char.ofNat 10)).length ∧
      (link.ImportType = [] ∨ link.ImportType ∈ importKinds)) _ _ _ hlinks ?_
    intro links2 re _ hlinks2
    refine foldl_invariant (fun links : List DependencyLink => ∀ link ∈ links,
      1 ≤ link.LineNumber ∧
      link.LineNumber ≤ (strings.Split content (Char.ofNat 10)).length ∧
      (link.ImportType = [] ∨ link.ImportType ∈ importKinds)) _ _ _ hlinks2 ?_
    intro links3 m _ hlinks3
    try dsimp only
    split_ifs
    · intro link hl
      rcases List.mem_append.mp hl with h | h
      · exact hlinks3 link h
      · rw [List.mem_singleton] at h
        obtain ⟨k1, k2⟩ := parseDependencyMatch_kind m language (e.1 + 1)
        rw [h, k1]
        exact ⟨by omega, by omega, k2⟩
    · exact hlinks3

/-! ## Exports -/

theorem TrimSpace_ends (s : Str) (c : Char)
    (h : (strings.TrimSpace s).head? = some c ∨ (strings.TrimSpace s).getLast? = some c) :
    strings.isSpace c = false := by
  unfold strings.TrimSpace at h
  rw [List.head?_reverse, List.getLast?_reverse] at h
  rcases h with h | h
  · have hne : (List.dropWhile strings.isSpace (List.dropWhile strings.isSpace s).reverse) ≠ [] := by
      intro h0; rw [h0] at h; simp at h
    have hsuf := List.dropWhile_suffix (l := (List.dropWhile strings.isSpace s).reverse)
      strings.isSpace
    have hl := hsuf.getLast hne
    have h2 : (List.dropWhile strings.isSpace s).reverse.getLast? = some c := by
      rw [List.getLast?_eq_getLast _ (fun h0 => hne (List.suffix_nil.mp (h0 ▸ hsuf))), ← hl,
        ← List.getLast?_eq_getLast _ hne]
      exact h
    rw [List.getLast?_reverse] at h2
    have h3 := List.head?_dropWhile_not strings.isSpace s
    rw [h2] at h3
    exact h3
  · have h3 := List.head?_dropWhile_not strings.isSpace
      (List.dropWhile strings.isSpace s).reverse
    rw [h] at h3
    exact h3

theorem splitNames_mem (g n : Str) (h : n ∈ splitNames g) :
    n ≠ [] ∧ ∀ c, (n.head? = some c ∨ n.getLast? = some c) → strings.isSpace c = false := by
  unfold splitNames at h
  simp only [List.mem_filter, List.mem_map, decide_eq_true_eq] at h
  obtain ⟨⟨piece, _, rfl⟩, hne⟩ := h
  exact ⟨hne, fun c hc => TrimSpace_ends piece c hc⟩

theorem keepFirstFrom_mem (seen l : List Str) (x : Str) :
    x ∈ keepFirstFrom seen l ↔ x ∈ l ∧ x ∉ seen := by
  induction l generalizing seen with
  | nil => simp [keepFirstFrom]
  | cons y ys ih =>
    unfold keepFirstFrom
    by_cases hy : y ∈ seen
    · rw [if_pos hy, ih]
      constructor
      · rintro ⟨h1, h2⟩; exact ⟨List.mem_cons_of_mem _ h1, h2⟩
      · rintro ⟨h1, h2⟩
        rcases List.mem_cons.mp h1 with rfl | h
        · exact absurd hy h2
        · exact ⟨h, h2⟩
    · rw [if_neg hy, List.mem_cons, ih]
      constructor
      · rintro (rfl | ⟨h1, h2⟩)
        · exact ⟨List.mem_cons_self _ _, hy⟩
        · exact ⟨List.mem_cons_of_mem _ h1, fun h => h2 (List.mem_cons_of_mem _ h)⟩
      · rintro ⟨h1, h2⟩
        by_cases hxy : x = y
        · exact Or.inl hxy
        · right
          rcases List.mem_cons.mp h1 with h | h
          · exact absurd h hxy
          · refine ⟨h, fun hm => ?_⟩
            rcases List.mem_cons.mp hm with h' | h'
            · exact hxy h'
            · exact h2 h'

theorem keepFirstFrom_nodup (seen l : List Str) : (keepFirstFrom seen l).Nodup := by
  induction l generalizing seen with
  | nil => simp [keepFirstFrom]
  | cons y ys ih =>
    unfold keepFirstFrom
    by_cases hy : y ∈ seen
    · rw [if_pos hy]; exact ih seen
    · rw [if_neg hy, List.nodup_cons]
      refine ⟨fun h => ?_, ih _⟩
      exact ((keepFirstFrom_mem _ _ _).mp h).2 (List.mem_cons_self _ _)

theorem foldl_addName (l : List Str) (st : List Str × List Str) :
    (l.foldl addName st).1 = st.1 ++ keepFirstFrom st.2 l := by
  induction l generalizing st with
  | nil => simp [keepFirstFrom]
  | cons x xs ih =>
    by_cases hx : x ∈ st.2
    · have h1 : addName st x = st := by simp [addName, hx]
      have h2 : keepFirstFrom st.2 (x :: xs) = keepFirstFrom st.2 xs := by
        simp [keepFirstFrom, hx]
      rw [List.foldl_cons, h1, h2, ih]
    · have h1 : addName st x = (st.1 ++ [x], x :: st.2) := by simp [addName, hx]
      have h2 : keepFirstFrom st.2 (x :: xs) = x :: keepFirstFrom (x :: st.2) xs := by
        simp [keepFirstFrom, hx]
      rw [List.foldl_cons, h1, h2, ih]
      simp

theorem foldl_trim_eq (pieces : List Str) (st : List Str × List Str) :
    pieces.foldl (fun (st : List Str × List Str) name =>
      let name := strings.TrimSpace name
      if name ≠ [] ∧ ¬ name ∈ st.2 then (st.1 ++ [name], name :: st.2) else st) st =
    ((pieces.map strings.TrimSpace).filter (fun n => decide (n ≠ []))).foldl addName st := by
  induction pieces generalizing st with
  | nil => rfl
  | cons x xs ih =>
    simp only [List.foldl_cons, List.map_cons, List.filter_cons]
    by_cases hx : strings.TrimSpace x = []
    · simp only [hx, ne_eq, not_true_eq_false, false_and, if_false, decide_False,
        Bool.false_eq_true]
      exact ih st
    · simp only [hx, ne_eq, not_false_eq_true, true_and, decide_True, if_true,
        List.foldl_cons]
      rw [ih]
      rfl

theorem foldl_flatMap_eq {α β γ : Type} (f : α → List β) (g : γ → β → γ) (l : List α)
    (init : γ) :
    (l.flatMap f).foldl g init = l.foldl (fun acc x => (f x).foldl g acc) init := by
  induction l generalizing init with
  | nil => rfl
  | cons x xs ih => simp only [List.flatMap_cons, List.foldl_append, List.foldl_cons, ih]

theorem extractExports_eq (content language : Str) :
    extractExports content language = keepFirst (exportCandidates content language) := by
  unfold extractExports exportCandidates keepFirst
  cases languagePatterns language with
  | none => rfl
  | some patterns =>
    simp only
    have h := foldl_addName
      (patterns.Exports.flatMap (fun re =>
        (re.FindAllStringSubmatch content).flatMap (fun m =>
          if m.length ≥ 2 then splitNames (m.getD 1 []) else []))) ([], [])
    simp only [List.nil_append] at h
    rw [← h, foldl_flatMap_eq]
    congr 1
    apply List.foldl_ext
    intro st re _
    rw [foldl_flatMap_eq]
    apply List.foldl_ext
    intro st2 m _
    by_cases hm : m.length ≥ 2
    · rw [if_pos hm, if_pos hm, foldl_trim_eq]
      rfl
    · rw [if_neg hm, if_neg hm]
      rfl

theorem submatch_length (re : Regex) (s rest : Str) (c : Caps) :
    (re.submatch s rest c).length = re.numGroups + 1 := by
  simp [Regex.submatch]

theorem findAllFrom_length (re : Regex) (k : Nat) (am b : Bool) (s : Str) :
    ∀ m ∈ re.findAllFrom k am b s, m.length = re.numGroups + 1 := by
  induction k, am, b, s using Regex.findAllFrom.induct re with
  | case1 k x x1 c t ih =>
    intro m hm
    rw [Regex.findAllFrom] at hm
    exact ih m hm
  | case2 n x x1 =>
    intro m hm
    simp [Regex.findAllFrom] at hm
  | case3 am b h =>
    intro m hm
    simp [Regex.findAllFrom, h] at hm
  | case4 b rest c h =>
    intro m hm
    simp [Regex.findAllFrom, h] at hm
  | case5 am b rest c h ham =>
    intro m hm
    simp only [Regex.findAllFrom, h, ham, Bool.false_eq_true, if_false,
      List.mem_singleton] at hm
    rw [hm]; exact submatch_length _ _ _ _
  | case6 am b x t h ih =>
    intro m hm
    simp only [Regex.findAllFrom, h] at hm
    exact ih m hm
  | case7 am b x t rest c h hz ih =>
    intro m hm
    simp only [Regex.findAllFrom, h, hz, if_true, List.mem_append] at hm
    rcases hm with hm | hm
    · split_ifs at hm
      · simp at hm
      · rw [List.mem_singleton] at hm
        rw [hm]; exact submatch_length _ _ _ _
    · exact ih m hm
  | case8 am b x t rest c h hz ih =>
    intro m hm
    simp only [Regex.findAllFrom, h, hz, if_false, List.mem_cons] at hm
    rcases hm with hm | hm
    · rw [hm]; exact submatch_length _ _ _ _
    · exact ih m hm

/-- Every match slice has one entry for the whole match and one for each capture group. -/
theorem FindAllStringSubmatch_length (re : Regex) (s : Str) :
    ∀ m ∈ re.FindAllStringSubmatch s, m.length = re.numGroups + 1 :=
  findAllFrom_length re 0 false true s

/-- C11: the export list is the list of candidate names (pattern by pattern in catalog
order, match by match, the comma-split, trimmed, blank-dropped pieces of the first
capture group) with only the first occurrence of each name kept; it has no duplicate, no
empty name and no name that begins or ends with whitespace; and a match of a pattern
without a capture group has no first group, so it contributes no name. -/
theorem extractExports_invariant (content language : Str) :
    extractExports content language = keepFirst (exportCandidates content language) ∧
    (extractExports content language).Nodup ∧
    (∀ n ∈ extractExports content language, n ≠ [] ∧
      ∀ c, (n.head? = some c ∨ n.getLast? = some c) → strings.isSpace c = false) ∧
    (∀ (re : Regex) (m : List Str), re.numGroups = 0 →
      m ∈ re.FindAllStringSubmatch content → ¬ m.length ≥ 2) := by
  refine ⟨extractExports_eq content language, ?_, ?_, ?_⟩
  · rw [extractExports_eq]; exact keepFirstFrom_nodup _ _
  · intro n hn
    rw [extractExports_eq] at hn
    have hc := ((keepFirstFrom_mem _ _ _).mp hn).1
    unfold exportCandidates at hc
    cases hp : languagePatterns language with
    | none => rw [hp] at hc; simp at hc
    | some patterns =>
      rw [hp] at hc
      simp only [List.mem_flatMap] at hc
      obtain ⟨re, _, m, _, hm⟩ := hc
      split_ifs at hm
      · exact splitNames_mem _ _ hm
      · simp at hm
  · intro re m hg hm
    have := FindAllStringSubmatch_length re content m hm
    omega

set_option maxRecDepth 1000000 in
/-- C11 on a file that exports `a` twice and has a bare `export default`. -/
theorem extractExports_invariant_witness :
    reExportDefault.numGroups = 0 ∧
    reExportDefault.FindAllStringSubmatch "export default 1".toList =
      ["export default".toList] :: [] ∧
    extractExports "export const a = 1\nexport \x7b x, a , y\x7d\nexport default 1".toList
      "typescript".toList = ["a".toList, "x".toList, "y".toList] ∧
    exportCandidates "export const a = 1\nexport \x7b x, a , y\x7d\nexport default 1".toList
      "typescript".toList = ["a".toList, "x".toList, "a".toList, "y".toList] := by
  have h := extractExports_invariant
    "export const a = 1\nexport \x7b x, a , y\x7d\nexport default 1".toList "typescript".toList
  have hc : exportCandidates
      "export const a = 1\nexport \x7b x, a , y\x7d\nexport default 1".toList
      "typescript".toList = ["a".toList, "x".toList, "a".toList, "y".toList] := by decide
  refine ⟨by decide, by decide, ?_, hc⟩
  rw [h.1, hc]
  decide

/-! ## Dependency nodes and aggregate counts -/

theorem fileNode_foldl (f : DependencyLink → DependencyLink) (l : List DependencyLink)
    (node : DependencyNode) :
    l.foldl (fun node imp =>
      { node with Dependencies := node.Dependencies ++ [f imp] }) node =
      { node with Dependencies := node.Dependencies ++ l.map f } := by
  induction l generalizing node with
  | nil => simp
  | cons x xs ih => simp only [List.foldl_cons, ih, List.map_cons, List.append_assoc,
      List.singleton_append]

theorem calculateImportance_congr (n1 n2 : DependencyNode) (allDeps : List (Str × List Str))
    (hp : n1.Path = n2.Path) (he : n1.Exports = n2.Exports) :
    calculateImportance n1 allDeps = calculateImportance n2 allDeps := by
  rw [calculateImportance_eq, calculateImportance_eq, hp, he]

theorem buildAllDeps_eq_map (repoFiles : List (Str × Str)) :
    buildAllDeps repoFiles =
      repoFiles.map (fun e => (e.1,
        (extractImports e.2 (getLanguage e.1)).map (fun imp =>
          resolveImportPath e.1 imp.TargetPath repoFiles))) := by
  unfold buildAllDeps
  simp only [fileDeps_eq_map]

theorem finalNode_eq_snapshotNode (repoFiles : List (Str × Str)) (e : Str × Str) :
    finalNode repoFiles e = snapshotNode repoFiles e.1 e.2 := by
  have hf : fileNode repoFiles e.1 e.2 =
      { Path := e.1
        Name := getFileName e.1
        Type_ := getFileType e.1
        Language := getLanguage e.1
        Exports := extractExports e.2 (getLanguage e.1)
        Dependencies := (extractImports e.2 (getLanguage e.1)).map (fun imp =>
          resolvedLink imp (resolveImportPath e.1 imp.TargetPath repoFiles)) } := by
    unfold fileNode
    simp only
    rw [fileNode_foldl (fun imp =>
      resolvedLink imp (resolveImportPath e.1 imp.TargetPath repoFiles))]
    simp
  unfold finalNode snapshotNode
  rw [hf, ← buildAllDeps_eq_map]
  simp only [DependencyNode.mk.injEq, true_and, and_true, getFileName_eq_fileNameOf,
    resolvedLink]
  exact calculateImportance_congr _ _ _ rfl rfl

theorem lookup_map_none {β : Type} (l : List (Str × Str)) (f : Str × Str → β) (p : Str)
    (h : (l.map (fun e => (e.1, f e))).lookup p = none) : hasKey l p = false := by
  induction l with
  | nil => rfl
  | cons x xs ih =>
    simp only [List.map_cons, List.lookup_cons] at h
    by_cases hx : p == x.1
    · simp only [hx] at h
      exact absurd h (by simp)
    · simp only [hx] at h
      have hne : ¬ x.1 = p := fun heq => hx (by rw [heq]; exact beq_self_eq_true p)
      simp only [hasKey, List.any_cons, hne, decide_False, Bool.false_or]
      exact ih h

theorem hasKey_of_mem (l : List (Str × Str)) (e : Str × Str) (he : e ∈ l) :
    hasKey l e.1 = true := by
  simp only [hasKey, List.any_eq_true, decide_eq_true_eq]
  exact ⟨e, he, rfl⟩

/-- Every collected dependency is the snapshot node of its path or, when its path is no
key of the snapshot, the synthetic node. -/
theorem collectDependencies_nodes (req : BridgeRequest) :
    ∀ n ∈ (collectDependencies req).dependencies,
      (∃ content, (n.Path, content) ∈ req.RepoFiles ∧
        n = snapshotNode req.RepoFiles n.Path content) ∨
      (hasKey req.RepoFiles n.Path = false ∧
        n = syntheticNode n.Path (getLanguage req.FilePath)) := by
  unfold collectDependencies
  refine foldl_invariant (fun st : DepState => ∀ n ∈ st.dependencies,
      (∃ content, (n.Path, content) ∈ req.RepoFiles ∧
        n = snapshotNode req.RepoFiles n.Path content) ∨
      (hasKey req.RepoFiles n.Path = false ∧
        n = syntheticNode n.Path (getLanguage req.FilePath))) _ _ _ (by simp) ?_
  intro st imp _ hst
  unfold depStep
  simp only
  split_ifs with hseen
  · exact hst
  · cases hlook : (buildAllNodes req.RepoFiles).lookup
        (resolveImportPath req.FilePath imp.TargetPath req.RepoFiles) with
    | none =>
      intro n hn
      simp only [List.mem_append, List.mem_singleton] at hn
      rcases hn with hn | hn
      · exact hst n hn
      · right
        rw [buildAllNodes_eq] at hlook
        rw [hn]
        exact ⟨lookup_map_none _ _ _ hlook, by
          simp only [syntheticNode, getFileName_eq_fileNameOf]⟩
    | some node =>
      intro n hn
      simp only [List.mem_append, List.mem_singleton] at hn
      rcases hn with hn | hn
      · exact hst n hn
      · left
        rw [buildAllNodes_eq] at hlook
        obtain ⟨e, he, h1, h2⟩ := lookup_map_Path _ _ _ _ hlook
        rw [hn, ← h2, finalNode_eq_snapshotNode]
        exact ⟨e.2, he, rfl⟩

/-- C15: every entry of the returned dependencies whose path is a key of the snapshot is
the snapshot node of that path (its own language, the role from `getFileType`, its
exports, its resolved dependency links and the importance computed over the whole
snapshot); every other entry is the synthetic node: role `external`, importance 0, the
language tag of the target file, the file name of its path as name, no exports and no
dependency links. -/
theorem analyzeBridge_dependency_nodes (sortSlice : SortSlice) (hs : SortSliceSpec sortSlice)
    (req : BridgeRequest) :
    ∀ n ∈ (analyzeBridge sortSlice req).Dependencies,
      (hasKey req.RepoFiles n.Path = true →
        ∃ content, (n.Path, content) ∈ req.RepoFiles ∧
          n = snapshotNode req.RepoFiles n.Path content) ∧
      (hasKey req.RepoFiles n.Path = false →
        n = syntheticNode n.Path (getLanguage req.FilePath)) := by
  intro n hn
  have hd : (analyzeBridge sortSlice req).Dependencies =
      sortSlice importanceLess (collectDependencies req).dependencies := rfl
  rw [hd] at hn
  have hn2 := (sortSlice_perm sortSlice hs _).mem_iff.mp hn
  rcases collectDependencies_nodes req n hn2 with ⟨content, hc, hnode⟩ | ⟨hk, hnode⟩
  · refine ⟨fun _ => ⟨content, hc, hnode⟩, fun hk => ?_⟩
    have := hasKey_of_mem req.RepoFiles (n.Path, content) hc
    rw [hk] at this
    exact absurd this (by simp)
  · refine ⟨fun hk2 => ?_, fun _ => hnode⟩
    rw [hk] at hk2
    exact absurd hk2 (by simp)

set_option maxRecDepth 1000000 in
/-- C15 on `src/x.ts` importing `./c` (in the snapshot, with a side-effect import and a
named import of its own) and `react` (not in it): the attached node carries both links
with their kind, names, line and externality, the other node is synthetic. -/
theorem analyzeBridge_dependency_nodes_witness :
    SortSliceSpec insertionSortSlice ∧
    (analyzeBridge insertionSortSlice requestMixed).Dependencies =
      [{ Path := "src/c.ts".toList
         Name := "c.ts".toList
         Type_ := "file".toList
         Importance := 0
         Dependencies :=
           [{ TargetPath := "src/b.ts".toList, ImportType := "sideEffect".toList,
              ImportNames := [], LineNumber := 1, IsExternal := false },
            { TargetPath := "src/b.ts".toList, ImportType := "named".toList,
              ImportNames := ["b".toList], LineNumber := 2, IsExternal := false }]
         Exports := []
         Language := "typescript".toList },
       { Path := "react".toList
         Name := "react".toList
         Type_ := "external".toList
         Importance := 0
         Dependencies := []
         Exports := []
         Language := "typescript".toList }] ∧
    hasKey snapshotAC "src/c.ts".toList = true ∧
    hasKey snapshotAC "react".toList = false ∧
    (∃ content, ("src/c.ts".toList, content) ∈ requestMixed.RepoFiles ∧
      (analyzeBridge insertionSortSlice requestMixed).Dependencies.head? =
        some (snapshotNode requestMixed.RepoFiles "src/c.ts".toList content)) ∧
    (analyzeBridge insertionSortSlice requestMixed).Dependencies.getLast? =
      some (syntheticNode "react".toList (getLanguage requestMixed.FilePath)) := by
  have h := analyzeBridge_dependency_nodes insertionSortSlice insertionSortSlice_spec requestMixed
  have hd : (analyzeBridge insertionSortSlice requestMixed).Dependencies =
      [snapshotNode snapshotAC "src/c.ts".toList
          "import './b'\nimport \x7b b \x7d from './b'".toList,
        syntheticNode "react".toList "typescript".toList] := by decide
  obtain ⟨content, hc, hn⟩ := (h (snapshotNode snapshotAC "src/c.ts".toList
      "import './b'\nimport \x7b b \x7d from './b'".toList) (by rw [hd]; simp)).1 (by decide)
  have h2 := (h (syntheticNode "react".toList "typescript".toList) (by rw [hd]; simp)).2
    (by decide)
  refine ⟨insertionSortSlice_spec, by decide, by decide, by decide, ⟨content, hc, ?_⟩, ?_⟩
  · rw [hd]
    exact congrArg some hn
  · rw [hd]
    exact congrArg some h2

theorem dependents_paths_perm (sortSlice : SortSlice) (hs : SortSliceSpec sortSlice)
    (req : BridgeRequest) (hk : (req.RepoFiles.map Prod.fst).Nodup) :
    ((analyzeBridge sortSlice req).Dependents.map (fun n => n.Path)).Perm
      ((req.RepoFiles.filter (fun e => decide (e.1 ≠ req.FilePath ∧
        req.FilePath ∈ fileDeps req.RepoFiles e.1 e.2))).map Prod.fst) := by
  have h1 : (analyzeBridge sortSlice req).Dependents =
      sortSlice importanceLess (collectDependents req) := rfl
  rw [h1, ← dependents_paths, ← collectDependents_eq req hk]
  exact (sortSlice_perm sortSlice hs _).map _

theorem dependents_paths_nodup (sortSlice : SortSlice) (hs : SortSliceSpec sortSlice)
    (req : BridgeRequest) (hk : (req.RepoFiles.map Prod.fst).Nodup) :
    ((analyzeBridge sortSlice req).Dependents.map (fun n => n.Path)).Nodup ∧
    req.FilePath ∉ (analyzeBridge sortSlice req).Dependents.map (fun n => n.Path) := by
  have hperm := dependents_paths_perm sortSlice hs req hk
  refine ⟨hperm.nodup_iff.mpr (hk.sublist ((List.filter_sublist _).map _)), ?_⟩
  intro h
  rw [hperm.mem_iff] at h
  simp only [List.mem_map, List.mem_filter, decide_eq_true_eq] at h
  obtain ⟨e, ⟨_, hne, _⟩, he⟩ := h
  exact hne he

theorem dependencies_paths_nodup (sortSlice : SortSlice) (hs : SortSliceSpec sortSlice)
    (req : BridgeRequest) :
    ((analyzeBridge sortSlice req).Dependencies.map (fun n => n.Path)).Nodup := by
  have hd : (analyzeBridge sortSlice req).Dependencies =
      sortSlice importanceLess (collectDependencies req).dependencies := rfl
  rw [hd]
  exact ((sortSlice_perm sortSlice hs _).map _).nodup_iff.mpr (collectDependencies_spec req).2.1

theorem dedup_length_eq_iff (l : List Str) : l.dedup.length = l.length ↔ l.Nodup := by
  constructor
  · intro h
    have := (List.dedup_sublist l).eq_of_length h
    exact List.dedup_eq_self.mp this
  · intro h
    rw [List.dedup_eq_self.mpr h]

/-- C16, as amended: `TotalNodes` is the number of dependencies plus the number of
dependents plus one and `TotalEdges` is the number of dependencies plus the number of
dependents; `TotalNodes` is the number of distinct paths among the target, the
dependencies and the dependents exactly when the target is not among the dependencies
and no path is both a dependency and a dependent. -/
theorem analyzeBridge_counts (sortSlice : SortSlice) (hs : SortSliceSpec sortSlice)
    (req : BridgeRequest) (hk : (req.RepoFiles.map Prod.fst).Nodup) :
    (analyzeBridge sortSlice req).TotalNodes =
      (analyzeBridge sortSlice req).Dependencies.length +
        (analyzeBridge sortSlice req).Dependents.length + 1 ∧
    (analyzeBridge sortSlice req).TotalEdges =
      (analyzeBridge sortSlice req).Dependencies.length +
        (analyzeBridge sortSlice req).Dependents.length ∧
    ((touchedPaths req (analyzeBridge sortSlice req)).dedup.length =
        (analyzeBridge sortSlice req).TotalNodes ↔
      (req.FilePath ∉ (analyzeBridge sortSlice req).Dependencies.map (fun n => n.Path) ∧
        ∀ p ∈ (analyzeBridge sortSlice req).Dependencies.map (fun n => n.Path),
          p ∉ (analyzeBridge sortSlice req).Dependents.map (fun n => n.Path))) := by
  refine ⟨rfl, rfl, ?_⟩
  have hlen : (analyzeBridge sortSlice req).TotalNodes =
      (touchedPaths req (analyzeBridge sortSlice req)).length := by
    show (analyzeBridge sortSlice req).Dependencies.length +
        (analyzeBridge sortSlice req).Dependents.length + 1 = _
    simp [touchedPaths]
  obtain ⟨ht1, ht2⟩ := dependents_paths_nodup sortSlice hs req hk
  have hd := dependencies_paths_nodup sortSlice hs req
  rw [hlen, dedup_length_eq_iff]
  unfold touchedPaths
  rw [List.nodup_cons, List.nodup_append, List.mem_append]
  constructor
  · rintro ⟨h1, _, _, h4⟩
    exact ⟨fun h => h1 (Or.inl h), fun p hp hq => h4 hp hq⟩
  · rintro ⟨h1, h2⟩
    refine ⟨?_, hd, ht1, fun p hp hq => h2 p hp hq⟩
    rintro (h | h)
    · exact h1 h
    · exact ht2 h

set_option maxRecDepth 1000000 in
/-- The amended C16 on the snapshot `snapshotAC`, where the three counts agree. -/
theorem analyzeBridge_counts_witness :
    SortSliceSpec insertionSortSlice ∧
    ((requestB snapshotAC).RepoFiles.map Prod.fst).Nodup ∧
    (analyzeBridge insertionSortSlice (requestB snapshotAC)).TotalNodes = 3 ∧
    (analyzeBridge insertionSortSlice (requestB snapshotAC)).TotalEdges = 2 ∧
    (touchedPaths (requestB snapshotAC)
      (analyzeBridge insertionSortSlice (requestB snapshotAC))).dedup.length = 3 := by
  have h := analyzeBridge_counts insertionSortSlice insertionSortSlice_spec
    (requestB snapshotAC) (by decide)
  refine ⟨insertionSortSlice_spec, by decide, by rw [h.1]; decide, by rw [h.2.1]; decide, ?_⟩
  rw [h.2.2.mpr (by decide), h.1]
  decide

set_option maxRecDepth 1000000 in
/-- C16 fails as stated: when `src/t.ts` and `src/b.ts` import each other, the analysis
of `src/t.ts` lists `src/b.ts` as a dependency and as a dependent and reports 3 nodes
for 2 distinct paths; a file that imports itself is its own dependency and the analysis
reports 2 nodes for 1 path. -/
theorem analyzeBridge_counts_a_path_twice :
    (analyzeBridge insertionSortSlice requestCycle).Dependencies.map (fun n => n.Path) =
      ["src/b.ts".toList] ∧
    (analyzeBridge insertionSortSlice requestCycle).Dependents.map (fun n => n.Path) =
      ["src/b.ts".toList] ∧
    (analyzeBridge insertionSortSlice requestCycle).TotalNodes = 3 ∧
    (touchedPaths requestCycle (analyzeBridge insertionSortSlice requestCycle)).dedup.length
      = 2 ∧
    (analyzeBridge insertionSortSlice requestSelf).Dependencies.map (fun n => n.Path) =
      ["src/s.ts".toList] ∧
    (analyzeBridge insertionSortSlice requestSelf).TotalNodes = 2 ∧
    (touchedPaths requestSelf (analyzeBridge insertionSortSlice requestSelf)).dedup.length
      = 1 := by
  decide

/-! ## The bonus and the role -/

/-- C19, as amended: the bonus that `calculateImportance` adds is the bonus of the role
returned by `getFileType` for the same path (+5 utility, +3 component, +4 type, +0 any
other role) on every path that does not contain `/components/` together with `/lib/` or
`/utils/`; on a path that contains both, the role is `component` and the bonus is the +5
of `/lib/` and `/utils/`. -/
theorem calculateImportance_bonus_by_role (node : DependencyNode)
    (allDeps : List (Str × List Str)) :
    (¬ (strings.Contains node.Path "/components/".toList = true ∧
        (strings.Contains node.Path "/lib/".toList = true ∨
          strings.Contains node.Path "/utils/".toList = true)) →
      calculateImportance node allDeps =
        10 * (allDeps.map (fun e => e.2.count node.Path)).sum + 2 * node.Exports.length +
          roleBonusOfType (getFileType node.Path)) ∧
    ((strings.Contains node.Path "/components/".toList = true ∧
        (strings.Contains node.Path "/lib/".toList = true ∨
          strings.Contains node.Path "/utils/".toList = true)) →
      getFileType node.Path = "component".toList ∧
      calculateImportance node allDeps =
        10 * (allDeps.map (fun e => e.2.count node.Path)).sum + 2 * node.Exports.length + 5) := by
  constructor
  · intro h
    rw [calculateImportance_eq, roleBonus_eq_of_role node.Path h]
  · rintro ⟨hc, hl⟩
    refine ⟨?_, ?_⟩
    · unfold getFileType
      simp only [hc, if_true]
    · rw [calculateImportance_eq]
      unfold roleBonus
      rw [if_pos hl]

/-- The amended C19 on paths of the roles utility, component, type and page, and on a
path that contains both `/components/` and `/utils/`. -/
theorem calculateImportance_bonus_by_role_witness :
    getFileType "src/lib/a.ts".toList = "utility".toList ∧
    calculateImportance { Path := "src/lib/a.ts".toList } [] = 5 ∧
    getFileType "src/components/Button.tsx".toList = "component".toList ∧
    calculateImportance { Path := "src/components/Button.tsx".toList } [] = 3 ∧
    getFileType "src/types/api.ts".toList = "type".toList ∧
    calculateImportance { Path := "src/types/api.ts".toList } [] = 4 ∧
    getFileType "src/app/page.tsx".toList = "page".toList ∧
    calculateImportance { Path := "src/app/page.tsx".toList } [] = 0 ∧
    getFileType "src/components/utils/a.ts".toList = "component".toList ∧
    calculateImportance { Path := "src/components/utils/a.ts".toList } [] = 5 := by
  have h1 := (calculateImportance_bonus_by_role { Path := "src/lib/a.ts".toList } []).1
    (by decide)
  have h2 := (calculateImportance_bonus_by_role
    { Path := "src/components/Button.tsx".toList } []).1 (by decide)
  have h3 := (calculateImportance_bonus_by_role { Path := "src/types/api.ts".toList } []).1
    (by decide)
  have h4 := (calculateImportance_bonus_by_role { Path := "src/app/page.tsx".toList } []).1
    (by decide)
  have h5 := (calculateImportance_bonus_by_role
    { Path := "src/components/utils/a.ts".toList } []).2 (by decide)
  refine ⟨by decide, ?_, by decide, ?_, by decide, ?_, by decide, ?_, h5.1, ?_⟩
  · rw [h1]; decide
  · rw [h2]; decide
  · rw [h3]; decide
  · rw [h4]; decide
  · rw [h5.2]; decide
